import Mathlib

/-!
Verification development for the event-forge repository: a rate-controlled
emission engine (`generate_events.py`) feeding opaque JSON records into one of
three pluggable output sinks (terminal, file, Kafka).

The embedding models:
* the JSON value space and the exact serialized form produced by Python's
  `json.dumps` with its defaults (`ensure_ascii=True`, separators `", "` and
  `": "`), together with a deserializer, for the file-sink round-trip;
* the three output plugins (`plugins/output/terminal.py`, `file.py`,
  `kafka.py`) as state-passing functions with explicit side-effect traces;
* the run loop of `generate_events_at_rate` as a fuel-indexed step function
  over an explicit loop state, producing a trace of observable actions
  (emissions, sleeps, statistics renders, the final summary, sink close).

Wall-clock instants, the target rate and sleep durations are modelled as
rationals; Python floats are not modelled bit-for-bit, only the arithmetic the
specification states.  Machine integers do not overflow in any quantity the
claims touch, so `Nat`/`Int` are used directly.
-/

namespace EventForge

/-! ### JSON values

The generator's records are Python dicts built from strings, ints, bools,
`None`, lists and nested dicts (`EventGenerator.generate_event`); the engine
treats them as opaque serializable values.  Numbers are modelled as integers:
the generator only ever produces ints (ages, counts); keys keep insertion
order, as Python dicts do.  Strings are modelled as lists of Unicode scalar
values. -/
inductive Json where
  | null : Json
  | bool (b : Bool) : Json
  | num (n : Int) : Json
  | str (s : List Char) : Json
  | arr (elems : List Json) : Json
  | obj (members : List (List Char × Json)) : Json

/-- Lowercase hexadecimal digit character for a value below 16, as produced by
Python's `\uXXXX` escapes. -/
def hexDig (d : Nat) : Char :=
  if d < 10 then Char.ofNat (48 + d) else Char.ofNat (87 + d)

/-- Four lowercase hex digits of a value below 0x10000, most significant
first. -/
def hex4 (n : Nat) : List Char :=
  [hexDig (n / 4096 % 16), hexDig (n / 256 % 16), hexDig (n / 16 % 16), hexDig (n % 16)]

/-- Escape one character the way CPython's `json.dumps` does with its default
`ensure_ascii=True`: the two-character shortcuts for `"`, `\`, and the five
named control characters; `\uXXXX` for the remaining control characters and
for every non-ASCII scalar, using a UTF-16 surrogate pair above 0xFFFF;
printable ASCII passes through unchanged. -/
def escChar (c : Char) : List Char :=
  if c = '"' then ['\\', '"']
  else if c = '\\' then ['\\', '\\']
  else if c = '\n' then ['\\', 'n']
  else if c = '\r' then ['\\', 'r']
  else if c = '\t' then ['\\', 't']
  else if c.toNat = 8 then ['\\', 'b']
  else if c.toNat = 12 then ['\\', 'f']
  else if c.toNat < 0x20 then '\\' :: 'u' :: hex4 c.toNat
  else if c.toNat ≤ 0x7E then [c]
  else if c.toNat < 0x10000 then '\\' :: 'u' :: hex4 c.toNat
  else
    ('\\' :: 'u' :: hex4 (0xD800 + (c.toNat - 0x10000) / 0x400)) ++
      ('\\' :: 'u' :: hex4 (0xDC00 + (c.toNat - 0x10000) % 0x400))

/-- A JSON string literal: quote, escaped content, quote. -/
def strChars (s : List Char) : List Char :=
  '"' :: (s.flatMap escChar ++ ['"'])

/-- Decimal digit character. -/
def digitChar (d : Nat) : Char := Char.ofNat (48 + d)

/-- Decimal digits of a natural number, most significant first, as Python's
`str` prints it (so `0` prints as a single `0`). -/
def natChars (n : Nat) : List Char :=
  if n = 0 then ['0'] else ((Nat.digits 10 n).reverse).map digitChar

/-- Decimal form of an integer: optional minus sign, then digits. -/
def intChars (i : Int) : List Char :=
  if i < 0 then '-' :: natChars i.natAbs else natChars i.natAbs

mutual
/-- Serialization of a value exactly as `json.dumps(event)` renders it with
default arguments: item separator `", "`, key separator `": "`, compact
brackets, `ensure_ascii` escapes. -/
def dumps : Json → List Char
  | .num i => intChars i
  | .str s => strChars s
  | .null => ['n', 'u', 'l', 'l']
  | .bool false => ['f', 'a', 'l', 's', 'e']
  | .bool true => ['t', 'r', 'u', 'e']
  | .arr [] => ['[', ']']
  | .arr (x :: xs) => '[' :: (dumps x ++ dumpsTailElems xs ++ [']'])
  | .obj [] => ['{', '}']
  | .obj (m :: ms) =>
      '{' :: (strChars m.1 ++ ':' :: ' ' :: (dumps m.2 ++ dumpsTailMembers ms ++ ['}']))

/-- Remaining array elements, each preceded by the `", "` separator. -/
def dumpsTailElems : List Json → List Char
  | x :: xs => ',' :: ' ' :: (dumps x ++ dumpsTailElems xs)
  | [] => []

/-- Remaining object members, each preceded by `", "` and keyed with `": "`. -/
def dumpsTailMembers : List (List Char × Json) → List Char
  | [] => []
  | m :: ms => ',' :: ' ' :: (strChars m.1 ++ ':' :: ' ' :: (dumps m.2 ++ dumpsTailMembers ms))
end

/-! ### A JSON reader

The spec's round-trip property reads the file back "line-by-line and
deserialized"; the reader is not part of the repository (records are read back
with a standard JSON reader such as `json.loads`), so it is embedded here as a
recursive-descent reader of the same grammar, total via a fuel argument. -/

/-- JSON insignificant whitespace. -/
def isWsCh (c : Char) : Bool := c = ' ' || c = '\n' || c = '\t' || c = '\r'

/-- Drop leading JSON whitespace. -/
def skipWs : List Char → List Char
  | [] => []
  | c :: cs => if isWsCh c then skipWs cs else c :: cs

/-- ASCII decimal digit test. -/
def isDigitCh (c : Char) : Bool := 48 ≤ c.toNat && c.toNat ≤ 57

/-- Value of one hexadecimal digit character, either case. -/
def hexVal (c : Char) : Option Nat :=
  if 48 ≤ c.toNat ∧ c.toNat ≤ 57 then some (c.toNat - 48)
  else if 97 ≤ c.toNat ∧ c.toNat ≤ 102 then some (c.toNat - 87)
  else if 65 ≤ c.toNat ∧ c.toNat ≤ 70 then some (c.toNat - 55)
  else none

/-- Value of a four-hex-digit escape payload. -/
def hexQuad (a b c d : Char) : Option Nat :=
  match hexVal a, hexVal b, hexVal c, hexVal d with
  | some va, some vb, some vc, some vd => some (((va * 16 + vb) * 16 + vc) * 16 + vd)
  | _, _, _, _ => none

/-- Decode what follows a backslash: one escape sequence, yielding the decoded
scalar and the remainder.  Handles the named shortcuts, `\uXXXX`, and the
recombination of UTF-16 surrogate pairs written by `ensure_ascii`; an unpaired
surrogate escape is rejected. -/
def unescapeOne : List Char → Option (Char × List Char)
  | [] => none
  | e :: rest =>
    if e = 'u' then
      match rest with
      | a :: b :: c2 :: d :: rest2 =>
        (match hexQuad a b c2 d with
        | none => none
        | some n =>
          if 0xD800 ≤ n ∧ n ≤ 0xDBFF then
            (match rest2 with
            | '\\' :: 'u' :: a2 :: b2 :: c3 :: d2 :: rest3 =>
                (match hexQuad a2 b2 c3 d2 with
                | none => none
                | some m =>
                    if 0xDC00 ≤ m ∧ m ≤ 0xDFFF then
                      some (Char.ofNat (0x10000 + (n - 0xD800) * 0x400 + (m - 0xDC00)), rest3)
                    else none)
            | _ => none)
          else if 0xDC00 ≤ n ∧ n ≤ 0xDFFF then none
          else some (Char.ofNat n, rest2))
      | _ => none
    else if e = '"' then some ('"', rest)
    else if e = '\\' then some ('\\', rest)
    else if e = '/' then some ('/', rest)
    else if e = 'n' then some ('\n', rest)
    else if e = 'r' then some ('\r', rest)
    else if e = 't' then some ('\t', rest)
    else if e = 'b' then some (Char.ofNat 8, rest)
    else if e = 'f' then some (Char.ofNat 12, rest)
    else none

/-- Read a string body after the opening quote, undoing the escapes.  The
accumulator holds the scalars read so far, reversed; the fuel argument (one
unit per scalar read) makes the reader total. -/
def parseStrBody : Nat → List Char → List Char → Option (List Char × List Char)
  | _, _, [] => none
  | 0, _, _ => none
  | fuel + 1, acc, c :: rest =>
    if c = '"' then some (acc.reverse, rest)
    else if c = '\\' then
      match unescapeOne rest with
      | some (ch, rest2) => parseStrBody fuel (ch :: acc) rest2
      | none => none
    else parseStrBody fuel (c :: acc) rest

/-- Longest leading run of decimal digits, and the remainder. -/
def spanDigits : List Char → List Char × List Char
  | [] => ([], [])
  | c :: cs =>
      if isDigitCh c then
        let p := spanDigits cs
        (c :: p.1, p.2)
      else ([], c :: cs)

/-- Numeric value of a digit run, most significant first. -/
def digitsVal (ds : List Char) : Nat := ds.foldl (fun a c => 10 * a + (c.toNat - 48)) 0

/-- Read an integer: optional minus sign, then a nonempty digit run.  The
generator's records only carry integers, so fractions and exponents never
occur in this file's lines. -/
def parseNumber : List Char → Option (Int × List Char)
  | [] => none
  | c :: rest =>
    if c = '-' then
      let p := spanDigits rest
      if p.1.isEmpty then none else some (-(digitsVal p.1 : Int), p.2)
    else
      let p := spanDigits (c :: rest)
      if p.1.isEmpty then none else some ((digitsVal p.1 : Int), p.2)

mutual
/-- Read one JSON value (fuel-indexed recursive descent). -/
def parseValue : Nat → List Char → Option (Json × List Char)
  | 0, _ => none
  | fuel + 1, input =>
    match skipWs input with
    | [] => none
    | c :: rest =>
      if c = 'n' then
        match rest with
        | 'u' :: 'l' :: 'l' :: rest2 => some (.null, rest2)
        | _ => none
      else if c = 't' then
        match rest with
        | 'r' :: 'u' :: 'e' :: rest2 => some (.bool true, rest2)
        | _ => none
      else if c = 'f' then
        match rest with
        | 'a' :: 'l' :: 's' :: 'e' :: rest2 => some (.bool false, rest2)
        | _ => none
      else if c = '"' then
        match parseStrBody fuel [] rest with
        | some (s, rest2) => some (.str s, rest2)
        | none => none
      else if c = '[' then
        match skipWs rest with
        | [] => none
        | c2 :: rest2 =>
            if c2 = ']' then some (.arr [], rest2)
            else
              match parseElems fuel (c2 :: rest2) with
              | some (xs, rest3) => some (.arr xs, rest3)
              | none => none
      else if c = '{' then
        match skipWs rest with
        | [] => none
        | c2 :: rest2 =>
            if c2 = '}' then some (.obj [], rest2)
            else
              match parseMembers fuel (c2 :: rest2) with
              | some (ms, rest3) => some (.obj ms, rest3)
              | none => none
      else if c = '-' || isDigitCh c then
        match parseNumber (c :: rest) with
        | some (i, rest2) => some (.num i, rest2)
        | none => none
      else none

/-- Read one or more comma-separated array elements up to the closing bracket. -/
def parseElems : Nat → List Char → Option (List Json × List Char)
  | 0, _ => none
  | fuel + 1, input =>
    match parseValue fuel input with
    | none => none
    | some (v, rest) =>
      match skipWs rest with
      | [] => none
      | c :: rest2 =>
        if c = ',' then
          match parseElems fuel (skipWs rest2) with
          | some (vs, rest3) => some (v :: vs, rest3)
          | none => none
        else if c = ']' then some ([v], rest2)
        else none

/-- Read one or more comma-separated object members up to the closing brace. -/
def parseMembers : Nat → List Char → Option (List (List Char × Json) × List Char)
  | 0, _ => none
  | fuel + 1, input =>
    match skipWs input with
    | [] => none
    | c :: rest =>
      if c = '"' then
        match parseStrBody fuel [] rest with
        | none => none
        | some (k, rest1) =>
          match skipWs rest1 with
          | [] => none
          | c2 :: rest2 =>
            if c2 = ':' then
              match parseValue fuel (skipWs rest2) with
              | none => none
              | some (v, rest3) =>
                match skipWs rest3 with
                | [] => none
                | c3 :: rest4 =>
                  if c3 = ',' then
                    match parseMembers fuel (skipWs rest4) with
                    | some (ms, rest5) => some ((k, v) :: ms, rest5)
                    | none => none
                  else if c3 = '}' then some ([(k, v)], rest4)
                  else none
            else none
      else none
end

/-- Deserialize one complete line: read a value and require only whitespace
after it. -/
def loads (cs : List Char) : Option Json :=
  match parseValue (cs.length + 1) cs with
  | some (j, rest) => if skipWs rest = [] then some j else none
  | none => none

/-- Split a character stream into its newline-terminated lines and the
trailing characters after the last newline (empty iff the stream ends in a
newline or is empty). -/
def splitNL : List Char → List (List Char) × List Char
  | [] => ([], [])
  | c :: rest =>
      if c = '\n' then
        let p := splitNL rest
        ([] :: p.1, p.2)
      else
        let p := splitNL rest
        match p.1 with
        | [] => ([], c :: p.2)
        | l :: ls => ((c :: l) :: ls, p.2)

/-! ### Round trip of the string escapes -/

/-- Going to a character code and back is the identity on valid codes. -/
theorem char_toNat_ofNat {n : Nat} (h : n.isValidChar) : (Char.ofNat n).toNat = n := by
  simp only [Char.ofNat, h, dif_pos]
  rfl

/-- Every character code avoids the UTF-16 surrogate range and is below
0x110000. -/
theorem char_code_ranges (c : Char) :
    c.toNat < 0xD800 ∨ (0xDFFF < c.toNat ∧ c.toNat < 0x110000) := by
  have h := c.valid
  simpa [UInt32.isValidChar, Nat.isValidChar] using h

/-- Reading back one hexadecimal digit character recovers its value. -/
theorem hexVal_hexDig {d : Nat} (h : d < 16) : hexVal (hexDig d) = some d := by
  have key : ∀ e : Fin 16, hexVal (hexDig e.val) = some e.val := by decide
  exact key ⟨d, h⟩

/-- Reading back the four hex digits of `hex4` recovers the encoded value. -/
theorem hexQuad_of_hex4 {n : Nat} (h : n < 0x10000) :
    hexQuad (hexDig (n / 4096 % 16)) (hexDig (n / 256 % 16)) (hexDig (n / 16 % 16))
      (hexDig (n % 16)) = some n := by
  have h1 := hexVal_hexDig (show n / 4096 % 16 < 16 by omega)
  have h2 := hexVal_hexDig (show n / 256 % 16 < 16 by omega)
  have h3 := hexVal_hexDig (show n / 16 % 16 < 16 by omega)
  have h4 := hexVal_hexDig (show n % 16 < 16 by omega)
  simp only [hexQuad, h1, h2, h3, h4]
  exact congrArg some (by omega)

/-- Decoding a non-surrogate `\uXXXX` escape yields the encoded scalar. -/
theorem unescapeOne_hex4 {n : Nat} (rest : List Char) (h : n < 0x10000)
    (hs : ¬ (0xD800 ≤ n ∧ n ≤ 0xDFFF)) :
    unescapeOne ('u' :: (hex4 n ++ rest)) = some (Char.ofNat n, rest) := by
  simp only [hex4, List.cons_append, List.nil_append]
  simp only [unescapeOne, eq_self_iff_true, if_true, hexQuad_of_hex4 h]
  rw [if_neg (show ¬ (0xD800 ≤ n ∧ n ≤ 0xDBFF) by omega),
    if_neg (show ¬ (0xDC00 ≤ n ∧ n ≤ 0xDFFF) by omega)]

/-- Decoding a surrogate-pair escape yields the recombined scalar. -/
theorem unescapeOne_pair {n m : Nat} (rest : List Char)
    (hn : 0xD800 ≤ n ∧ n ≤ 0xDBFF) (hm : 0xDC00 ≤ m ∧ m ≤ 0xDFFF) :
    unescapeOne ('u' :: (hex4 n ++ ('\\' :: 'u' :: (hex4 m ++ rest))))
      = some (Char.ofNat (0x10000 + (n - 0xD800) * 0x400 + (m - 0xDC00)), rest) := by
  simp only [hex4, List.cons_append, List.nil_append]
  simp only [unescapeOne, eq_self_iff_true, if_true, hexQuad_of_hex4 (show n < 0x10000 by omega),
    hexQuad_of_hex4 (show m < 0x10000 by omega)]
  rw [if_pos hn, if_pos hm]

/-- One-step unfolding of the string reader at a backslash. -/
theorem parseStrBody_backslash (fuel : Nat) (acc t : List Char) :
    parseStrBody (fuel + 1) acc ('\\' :: t)
      = match unescapeOne t with
        | some (ch, rest2) => parseStrBody fuel (ch :: acc) rest2
        | none => none := rfl

/-- One-step unfolding of the string reader at an unescaped ordinary
character. -/
theorem parseStrBody_other (fuel : Nat) (acc rest : List Char) (c : Char)
    (h1 : ¬ c = '"') (h2 : ¬ c = '\\') :
    parseStrBody (fuel + 1) acc (c :: rest) = parseStrBody fuel (c :: acc) rest := by
  rw [parseStrBody.eq_def]
  simp only [if_neg h1, if_neg h2]

/-- Reading back the escape of any character consumes exactly that escape and
accumulates the character: the escape encoding is left-inverted by the
reader. -/
theorem parseStrBody_escChar (fuel : Nat) (c : Char) (acc rest : List Char) :
    parseStrBody (fuel + 1) acc (escChar c ++ rest) = parseStrBody fuel (c :: acc) rest := by
  by_cases h1 : c = '"'
  · subst h1; rfl
  by_cases h2 : c = '\\'
  · subst h2; rfl
  by_cases h3 : c = '\n'
  · subst h3; rfl
  by_cases h4 : c = '\r'
  · subst h4; rfl
  by_cases h5 : c = '\t'
  · subst h5; rfl
  by_cases h6 : c.toNat = 8
  · have hc : c = Char.ofNat 8 := by rw [← h6, Char.ofNat_toNat]
    subst hc; rfl
  by_cases h7 : c.toNat = 12
  · have hc : c = Char.ofNat 12 := by rw [← h7, Char.ofNat_toNat]
    subst hc; rfl
  by_cases h8 : c.toNat < 0x20
  · have hesc : escChar c = '\\' :: 'u' :: hex4 c.toNat := by
      simp only [escChar, if_neg h1, if_neg h2, if_neg h3, if_neg h4, if_neg h5, if_neg h6,
        if_neg h7, if_pos h8]
    rw [hesc]
    simp only [List.cons_append]
    rw [parseStrBody_backslash, unescapeOne_hex4 rest (by omega) (by omega), Char.ofNat_toNat]
  by_cases h9 : c.toNat ≤ 0x7E
  · have hesc : escChar c = [c] := by
      simp only [escChar, if_neg h1, if_neg h2, if_neg h3, if_neg h4, if_neg h5, if_neg h6,
        if_neg h7, if_neg h8, if_pos h9]
    rw [hesc, List.singleton_append]
    exact parseStrBody_other fuel acc rest c h1 h2
  by_cases h10 : c.toNat < 0x10000
  · have hesc : escChar c = '\\' :: 'u' :: hex4 c.toNat := by
      simp only [escChar, if_neg h1, if_neg h2, if_neg h3, if_neg h4, if_neg h5, if_neg h6,
        if_neg h7, if_neg h8, if_neg h9, if_pos h10]
    have hns : ¬ (0xD800 ≤ c.toNat ∧ c.toNat ≤ 0xDFFF) := by
      rcases char_code_ranges c with h | h <;> omega
    rw [hesc]
    simp only [List.cons_append]
    rw [parseStrBody_backslash, unescapeOne_hex4 rest h10 hns, Char.ofNat_toNat]
  · have hesc : escChar c =
        ('\\' :: 'u' :: hex4 (0xD800 + (c.toNat - 0x10000) / 0x400)) ++
          ('\\' :: 'u' :: hex4 (0xDC00 + (c.toNat - 0x10000) % 0x400)) := by
      simp only [escChar, if_neg h1, if_neg h2, if_neg h3, if_neg h4, if_neg h5, if_neg h6,
        if_neg h7, if_neg h8, if_neg h9, if_neg h10]
    have hmax : c.toNat < 0x110000 := by
      rcases char_code_ranges c with h | h <;> omega
    rw [hesc]
    simp only [List.cons_append, List.append_assoc]
    rw [parseStrBody_backslash,
      unescapeOne_pair rest (by omega) (by constructor <;> omega)]
    have harith : 0x10000 + ((0xD800 + (c.toNat - 0x10000) / 0x400) - 0xD800) * 0x400 +
        ((0xDC00 + (c.toNat - 0x10000) % 0x400) - 0xDC00) = c.toNat := by omega
    rw [harith, Char.ofNat_toNat]

/-- Reading back a fully escaped character run stops exactly at the closing
quote and returns the accumulated scalars in order. -/
theorem parseStrBody_flatMap (s : List Char) : ∀ (acc rest : List Char) (fuel : Nat),
    s.length < fuel →
    parseStrBody fuel acc (s.flatMap escChar ++ '"' :: rest) = some (acc.reverse ++ s, rest) := by
  induction s with
  | nil =>
      intro acc rest fuel hf
      match fuel, hf with
      | fuel + 1, _ => simp [parseStrBody]
  | cons c cs ih =>
      intro acc rest fuel hf
      match fuel, hf with
      | fuel + 1, hf =>
        rw [List.flatMap_cons, List.append_assoc, parseStrBody_escChar fuel c acc,
          ih (c :: acc) rest fuel (by simpa using Nat.lt_of_succ_lt_succ hf)]
        simp

/-- Reading back a serialized string literal after its opening quote recovers
the string. -/
theorem parseStrBody_strChars (s : List Char) (rest : List Char) (fuel : Nat)
    (hf : s.length < fuel) :
    parseStrBody fuel [] (s.flatMap escChar ++ '"' :: rest) = some (s, rest) := by
  rw [parseStrBody_flatMap s [] rest fuel hf]
  simp

/-! ### Round trip of integers -/

/-- Character code of a decimal digit character. -/
theorem digitChar_toNat {d : Nat} (h : d < 10) : (digitChar d).toNat = 48 + d :=
  char_toNat_ofNat (Or.inl (by omega))

/-- Decimal digit characters pass the digit test. -/
theorem isDigitCh_digitChar {d : Nat} (h : d < 10) : isDigitCh (digitChar d) = true := by
  simp only [isDigitCh, digitChar_toNat h, Bool.and_eq_true, decide_eq_true_eq]
  omega

/-- Every character of a printed natural number is a decimal digit. -/
theorem natChars_all_digits (n : Nat) : ∀ c ∈ natChars n, isDigitCh c = true := by
  intro c hc
  unfold natChars at hc
  by_cases h : n = 0
  · subst h
    simp at hc
    subst hc; decide
  · rw [if_neg h] at hc
    rw [List.mem_map] at hc
    obtain ⟨d, hd, rfl⟩ := hc
    exact isDigitCh_digitChar (Nat.digits_lt_base (by norm_num) (List.mem_reverse.mp hd))

/-- A printed natural number has at least one digit. -/
theorem natChars_ne_nil (n : Nat) : natChars n ≠ [] := by
  unfold natChars
  by_cases h : n = 0
  · simp [h]
  · simp [h, Nat.digits_ne_nil_iff_ne_zero]

/-- Folding the digit characters of a digit list, most significant first,
computes the positional value on top of the accumulator. -/
theorem digitsVal_aux : ∀ (ds : List Nat), (∀ d ∈ ds, d < 10) → ∀ a : Nat,
    List.foldl (fun acc c => 10 * acc + (c.toNat - 48)) a ((ds.reverse).map digitChar)
      = a * 10 ^ ds.length + Nat.ofDigits 10 ds
  | [], _, a => by simp
  | d :: ds, hds, a => by
      have hd : d < 10 := hds d (by simp)
      have htail : ∀ x ∈ ds, x < 10 := fun x hx => hds x (by simp [hx])
      rw [List.reverse_cons, List.map_append, List.foldl_append, digitsVal_aux ds htail a]
      simp only [List.map_cons, List.map_nil, List.foldl_cons, List.foldl_nil,
        digitChar_toNat hd, Nat.ofDigits_cons, List.length_cons]
      rw [Nat.add_sub_cancel_left, pow_succ]
      ring

/-- Reading back the printed digits of a natural number recovers it. -/
theorem digitsVal_natChars (n : Nat) : digitsVal (natChars n) = n := by
  unfold natChars digitsVal
  by_cases h : n = 0
  · subst h; decide
  · rw [if_neg h,
      digitsVal_aux (Nat.digits 10 n) (fun d hd => Nat.digits_lt_base (by norm_num) hd) 0]
    simp [Nat.ofDigits_digits]

/-- A remainder that cannot extend a digit run: empty or headed by a
non-digit.  Every JSON delimiter and the newline terminator qualify. -/
def digitStop : List Char → Bool
  | [] => true
  | c :: _ => !isDigitCh c

/-- The digit scanner takes nothing from a `digitStop` remainder. -/
theorem spanDigits_stop {rest : List Char} (h : digitStop rest = true) :
    spanDigits rest = ([], rest) := by
  cases rest with
  | nil => rfl
  | cons c t =>
      simp only [digitStop, Bool.not_eq_true'] at h
      simp [spanDigits, h]

/-- The digit scanner consumes exactly a leading digit run. -/
theorem spanDigits_run : ∀ (ds : List Char), (∀ c ∈ ds, isDigitCh c = true) →
    ∀ (rest : List Char), digitStop rest = true →
    spanDigits (ds ++ rest) = (ds, rest)
  | [], _, rest, hrest => by simpa using spanDigits_stop hrest
  | c :: t, hds, rest, hrest => by
      have hc := hds c (by simp)
      have ht := spanDigits_run t (fun x hx => hds x (by simp [hx])) rest hrest
      simp [spanDigits, hc, ht]

/-- Digit characters are distinct from every character the grammar treats
specially. -/
theorem digit_facts {c : Char} (h : isDigitCh c = true) :
    ¬c = '-' ∧ ¬c = 'n' ∧ ¬c = 't' ∧ ¬c = 'f' ∧ ¬c = '"' ∧ ¬c = '[' ∧ ¬c = '\x7b' ∧
      isWsCh c = false ∧ ¬c = ']' ∧ ¬c = '\x7d' := by
  simp only [isDigitCh, Bool.and_eq_true, decide_eq_true_eq] at h
  refine ⟨?_, ?_, ?_, ?_, ?_, ?_, ?_, ?_, ?_, ?_⟩
  · rintro rfl; exact absurd h (by decide)
  · rintro rfl; exact absurd h (by decide)
  · rintro rfl; exact absurd h (by decide)
  · rintro rfl; exact absurd h (by decide)
  · rintro rfl; exact absurd h (by decide)
  · rintro rfl; exact absurd h (by decide)
  · rintro rfl; exact absurd h (by decide)
  · simp only [isWsCh, Bool.or_eq_false_iff, decide_eq_false_iff_not]
    refine ⟨⟨⟨?_, ?_⟩, ?_⟩, ?_⟩ <;> (rintro rfl; exact absurd h (by decide))
  · rintro rfl; exact absurd h (by decide)
  · rintro rfl; exact absurd h (by decide)

/-- Reading back a printed integer recovers it whenever the remainder cannot
extend the digit run. -/
theorem parseNumber_intChars (i : Int) (rest : List Char) (h : digitStop rest = true) :
    parseNumber (intChars i ++ rest) = some (i, rest) := by
  have hrun := spanDigits_run (natChars i.natAbs) (natChars_all_digits _) rest h
  obtain ⟨c0, t0, h0⟩ := List.exists_cons_of_ne_nil (natChars_ne_nil i.natAbs)
  by_cases hi : i < 0
  · have hesc : intChars i = '-' :: natChars i.natAbs := by simp [intChars, hi]
    rw [hesc, List.cons_append]
    simp only [parseNumber, eq_self_iff_true, if_true, hrun]
    rw [h0]
    simp only [List.isEmpty_cons, Bool.false_eq_true, if_false]
    rw [← h0, digitsVal_natChars]
    have hv : -((i.natAbs : Nat) : Int) = i := by omega
    rw [hv]
  · have hesc : intChars i = natChars i.natAbs := by simp [intChars, hi]
    have hd0 : isDigitCh c0 = true := natChars_all_digits i.natAbs c0 (by simp [h0])
    have hne : ¬ c0 = '-' := (digit_facts hd0).1
    rw [hesc, h0, List.cons_append]
    simp only [parseNumber, if_neg hne]
    rw [← List.cons_append, ← h0, hrun]
    rw [h0]
    simp only [List.isEmpty_cons, Bool.false_eq_true, if_false]
    rw [← h0, digitsVal_natChars]
    have hv : ((i.natAbs : Nat) : Int) = i := by omega
    rw [hv]

/-! ### Round trip of whole values -/

/-- Leading non-whitespace survives `skipWs`. -/
theorem skipWs_cons {c : Char} (h : isWsCh c = false) (l : List Char) :
    skipWs (c :: l) = c :: l := by simp [skipWs, h]

set_option maxHeartbeats 1000000 in
/-- Every escape produces at least one character. -/
theorem escChar_length_pos (c : Char) : 1 ≤ (escChar c).length := by
  unfold escChar
  split_ifs <;> simp [hex4]

/-- Escaping never shortens a string. -/
theorem length_le_flatMap (s : List Char) : s.length ≤ (s.flatMap escChar).length := by
  induction s with
  | nil => simp
  | cons c cs ih =>
      rw [List.flatMap_cons, List.length_append, List.length_cons]
      have := escChar_length_pos c
      omega

/-- Every serialized value begins with a character that is not whitespace and
closes neither an array nor an object. -/
theorem dumps_head (j : Json) :
    ∃ c t, dumps j = c :: t ∧ isWsCh c = false ∧ ¬c = ']' ∧ ¬c = '\x7d' := by
  have pick : ∀ (c : Char) (t : List Char), dumps j = c :: t →
      (isWsCh c = false ∧ ¬c = ']' ∧ ¬c = '\x7d') →
      ∃ c t, dumps j = c :: t ∧ isWsCh c = false ∧ ¬c = ']' ∧ ¬c = '\x7d' :=
    fun c t h1 h2 => ⟨c, t, h1, h2.1, h2.2.1, h2.2.2⟩
  cases j with
  | null =>
      exact pick 'n' _ rfl (by decide)
  | bool b =>
      cases b
      · exact pick 'f' _ rfl (by decide)
      · exact pick 't' _ rfl (by decide)
  | str s =>
      exact pick '"' _ rfl (by decide)
  | arr xs =>
      cases xs
      · exact pick '[' _ rfl (by decide)
      · exact pick '[' _ rfl (by decide)
  | obj ms =>
      cases ms
      · exact pick '\x7b' _ rfl (by decide)
      · exact pick '\x7b' _ rfl (by decide)
  | num i =>
      by_cases hi : i < 0
      · refine ⟨'-', natChars i.natAbs, ?_, by decide, by decide, by decide⟩
        show intChars i = _
        simp [intChars, hi]
      · obtain ⟨c0, t0, h0⟩ := List.exists_cons_of_ne_nil (natChars_ne_nil i.natAbs)
        have hd0 : isDigitCh c0 = true := natChars_all_digits i.natAbs c0 (by simp [h0])
        obtain ⟨_, _, _, _, _, _, _, hws, hbr, hbc⟩ := digit_facts hd0
        refine ⟨c0, t0, ?_, hws, hbr, hbc⟩
        show intChars i = _
        simp [intChars, hi, h0]

/-- Serialized output never begins with whitespace. -/
theorem skipWs_dumps (j : Json) (x : List Char) : skipWs (dumps j ++ x) = dumps j ++ x := by
  obtain ⟨c, t, hj, hw, _, _⟩ := dumps_head j
  rw [hj, List.cons_append, skipWs_cons hw]

/-- Leading space is dropped by `skipWs`. -/
theorem skipWs_space (l : List Char) : skipWs (' ' :: l) = skipWs l := rfl

/-- A serialized string literal does not begin with whitespace. -/
theorem skipWs_strChars (s x : List Char) :
    skipWs (strChars s ++ x) = strChars s ++ x := by
  rw [strChars, List.cons_append, skipWs_cons (by decide)]

/-- Serialized output is never empty. -/
theorem one_le_dumps_length (j : Json) : 1 ≤ (dumps j).length := by
  obtain ⟨c, t, hj, _, _, _⟩ := dumps_head j
  rw [hj]
  simp

/-- One-step unfolding of the value reader at an opening bracket. -/
theorem parseValue_lbracket (fuel : Nat) (L : List Char) :
    parseValue (fuel + 1) ('[' :: L)
      = match skipWs L with
        | [] => none
        | c2 :: rest2 =>
            if c2 = ']' then some (.arr [], rest2)
            else match parseElems fuel (c2 :: rest2) with
              | some (xs, rest3) => some (.arr xs, rest3)
              | none => none := rfl

/-- One-step unfolding of the value reader at an opening brace. -/
theorem parseValue_lbrace (fuel : Nat) (L : List Char) :
    parseValue (fuel + 1) ('{' :: L)
      = match skipWs L with
        | [] => none
        | c2 :: rest2 =>
            if c2 = '}' then some (.obj [], rest2)
            else match parseMembers fuel (c2 :: rest2) with
              | some (ms, rest3) => some (.obj ms, rest3)
              | none => none := rfl

/-- One-step unfolding of the value reader at an opening quote. -/
theorem parseValue_quote (fuel : Nat) (L : List Char) :
    parseValue (fuel + 1) ('"' :: L)
      = match parseStrBody fuel [] L with
        | some (s, rest2) => some (.str s, rest2)
        | none => none := rfl

/-- One-step unfolding of the value reader at a character that starts no
keyword, string, array or object: only a number can begin there. -/
theorem parseValue_other (fuel : Nat) (c : Char) (t : List Char)
    (hws : isWsCh c = false) (hn : ¬ c = 'n') (ht : ¬ c = 't') (hf : ¬ c = 'f')
    (hq : ¬ c = '"') (hbk : ¬ c = '[') (hbc : ¬ c = '{') :
    parseValue (fuel + 1) (c :: t)
      = if c = '-' || isDigitCh c then
          match parseNumber (c :: t) with
          | some (i, rest2) => some (.num i, rest2)
          | none => none
        else none := by
  rw [parseValue.eq_def]
  simp only [skipWs_cons hws, if_neg hn, if_neg ht, if_neg hf, if_neg hq, if_neg hbk, if_neg hbc]

/-- One-step unfolding of the element reader at positive fuel. -/
theorem parseElems_step (fuel : Nat) (input : List Char) :
    parseElems (fuel + 1) input
      = match parseValue fuel input with
        | none => none
        | some (v, rest) =>
          match skipWs rest with
          | [] => none
          | c :: rest2 =>
            if c = ',' then
              match parseElems fuel (skipWs rest2) with
              | some (vs, rest3) => some (v :: vs, rest3)
              | none => none
            else if c = ']' then some ([v], rest2)
            else none := rfl

/-- One-step unfolding of the member reader at an opening quote. -/
theorem parseMembers_quote (fuel : Nat) (L : List Char) :
    parseMembers (fuel + 1) ('"' :: L)
      = match parseStrBody fuel [] L with
        | none => none
        | some (k, rest1) =>
          match skipWs rest1 with
          | [] => none
          | c2 :: rest2 =>
            if c2 = ':' then
              match parseValue fuel (skipWs rest2) with
              | none => none
              | some (v, rest3) =>
                match skipWs rest3 with
                | [] => none
                | c3 :: rest4 =>
                  if c3 = ',' then
                    match parseMembers fuel (skipWs rest4) with
                    | some (ms, rest5) => some ((k, v) :: ms, rest5)
                    | none => none
                  else if c3 = '}' then some ([(k, v)], rest4)
                  else none
            else none := rfl

/-- The serialized form of an integer value is read back exactly. -/
theorem rt_num (i : Int) (fuel : Nat) (rest : List Char) (hr : digitStop rest = true) :
    parseValue (fuel + 1) (dumps (.num i) ++ rest) = some (.num i, rest) := by
  show parseValue (fuel + 1) (intChars i ++ rest) = some (.num i, rest)
  by_cases hi : i < 0
  · have hesc : intChars i = '-' :: natChars i.natAbs := by
      simp [intChars, hi]
    have hyph : isWsCh '-' = false ∧ ¬('-' : Char) = 'n' ∧ ¬('-' : Char) = 't'
        ∧ ¬('-' : Char) = 'f' ∧ ¬('-' : Char) = '"' ∧ ¬('-' : Char) = '['
        ∧ ¬('-' : Char) = '\x7b' := by decide
    obtain ⟨q1, q2, q3, q4, q5, q6, q7⟩ := hyph
    rw [hesc, List.cons_append, parseValue_other fuel '-' _ q1 q2 q3 q4 q5 q6 q7]
    rw [if_pos (by decide), ← List.cons_append, ← hesc, parseNumber_intChars i rest hr]
  · obtain ⟨c0, t0, h0⟩ := List.exists_cons_of_ne_nil (natChars_ne_nil i.natAbs)
    have hd0 : isDigitCh c0 = true := natChars_all_digits i.natAbs c0 (by simp [h0])
    obtain ⟨hm, hn', ht', hf', hq', hbk', hbc', hws', _, _⟩ := digit_facts hd0
    have hesc : intChars i = c0 :: t0 := by
      simp [intChars, hi, h0]
    rw [hesc, List.cons_append,
      parseValue_other fuel c0 _ hws' hn' ht' hf' hq' hbk' hbc']
    rw [if_pos (by simp [hd0]), ← List.cons_append, ← hesc, parseNumber_intChars i rest hr]

mutual
/-- For every value, reading its serialized form back yields the value and
leaves exactly the remainder, whenever the remainder cannot extend a digit
run and the fuel exceeds the serialized length. -/
theorem rt_val : ∀ (j : Json) (fuel : Nat) (rest : List Char),
    (dumps j).length < fuel → digitStop rest = true →
    parseValue fuel (dumps j ++ rest) = some (j, rest)
  | j, 0, _, hf, _ => absurd hf (Nat.not_lt_zero _)
  | .null, fuel + 1, rest, _, _ => rfl
  | .bool true, fuel + 1, rest, _, _ => rfl
  | .bool false, fuel + 1, rest, _, _ => rfl
  | .num i, fuel + 1, rest, _, hr => rt_num i fuel rest hr
  | .str s, fuel + 1, rest, hf, _ => by
      have hs : s.length < fuel := by
        have h1 := length_le_flatMap s
        have h2 : (dumps (.str s)).length = (s.flatMap escChar).length + 2 := by
          show (strChars s).length = _
          simp [strChars]
        omega
      have harg : dumps (.str s) ++ rest = '"' :: (s.flatMap escChar ++ '"' :: rest) := by
        show strChars s ++ rest = _
        simp [strChars]
      rw [harg, parseValue_quote, parseStrBody_strChars s rest fuel hs]
  | .arr [], fuel + 1, rest, _, _ => rfl
  | .arr (x :: xs), fuel + 1, rest, hf, _ => by
      have hlen : (dumps x).length + (dumpsTailElems xs).length + 1 < fuel := by
        simp only [dumps, List.length_cons, List.length_append, List.length_singleton,
          List.length_nil] at hf
        omega
      have harr : dumps (.arr (x :: xs)) ++ rest
          = '[' :: (dumps x ++ (dumpsTailElems xs ++ ']' :: rest)) := by
        simp [dumps, List.append_assoc]
      obtain ⟨c, t, hx, hws, hbr, _⟩ := dumps_head x
      have hel : parseElems fuel (c :: (t ++ (dumpsTailElems xs ++ ']' :: rest)))
          = some (x :: xs, rest) := by
        rw [← List.cons_append, ← hx]
        exact rt_elems x xs fuel rest hlen
      rw [harr, parseValue_lbracket, hx, List.cons_append, skipWs_cons hws]
      show (if c = ']' then some (Json.arr [], t ++ (dumpsTailElems xs ++ ']' :: rest))
        else match parseElems fuel (c :: (t ++ (dumpsTailElems xs ++ ']' :: rest))) with
          | some (xs2, rest3) => some (Json.arr xs2, rest3)
          | none => none) = some (Json.arr (x :: xs), rest)
      rw [if_neg hbr, hel]
  | .obj [], fuel + 1, rest, _, _ => rfl
  | .obj ((k, v) :: ms), fuel + 1, rest, hf, _ => by
      have hlen : (strChars k).length + (dumps v).length + (dumpsTailMembers ms).length + 2
          < fuel := by
        simp only [dumps, List.length_cons, List.length_append, List.length_singleton,
          List.length_nil] at hf
        omega
      have hobj : dumps (.obj ((k, v) :: ms)) ++ rest
          = '{' :: (strChars k ++ (':' :: ' ' ::
              (dumps v ++ (dumpsTailMembers ms ++ '}' :: rest)))) := by
        simp [dumps, List.append_assoc]
      have hmem := rt_members k v ms fuel rest hlen
      rw [hobj, parseValue_lbrace]
      rw [show strChars k ++ (':' :: ' ' :: (dumps v ++ (dumpsTailMembers ms ++ '}' :: rest)))
          = '"' :: ((k.flatMap escChar ++ ['"']) ++ (':' :: ' ' ::
              (dumps v ++ (dumpsTailMembers ms ++ '}' :: rest)))) from by
        rw [strChars, List.cons_append]]
      rw [skipWs_cons (by decide)]
      show (if ('"' : Char) = '}' then some (Json.obj [], (k.flatMap escChar ++ ['"']) ++ (':' :: ' ' ::
              (dumps v ++ (dumpsTailMembers ms ++ '}' :: rest))))
        else match parseMembers fuel ('"' :: ((k.flatMap escChar ++ ['"']) ++ (':' :: ' ' ::
              (dumps v ++ (dumpsTailMembers ms ++ '}' :: rest))))) with
          | some (ms2, rest3) => some (Json.obj ms2, rest3)
          | none => none) = some (Json.obj ((k, v) :: ms), rest)
      rw [if_neg (show ¬ ('"' : Char) = '}' by decide)]
      rw [show ('"' : Char) :: ((k.flatMap escChar ++ ['"']) ++ (':' :: ' ' ::
              (dumps v ++ (dumpsTailMembers ms ++ '}' :: rest))))
          = strChars k ++ (':' :: ' ' :: (dumps v ++ (dumpsTailMembers ms ++ '}' :: rest)))
          from by rw [strChars, List.cons_append]]
      rw [hmem]
  termination_by j _ _ _ _ => sizeOf j

/-- For every nonempty element list, reading back its serialized elements up
to the closing bracket yields the list. -/
theorem rt_elems : ∀ (x : Json) (xs : List Json) (fuel : Nat) (rest : List Char),
    (dumps x).length + (dumpsTailElems xs).length + 1 < fuel →
    parseElems fuel (dumps x ++ (dumpsTailElems xs ++ ']' :: rest)) = some (x :: xs, rest)
  | x, [], fuel + 1, rest, hf => by
      have hfx : (dumps x).length < fuel := by
        simp only [dumpsTailElems, List.length_nil] at hf
        omega
      have hval := rt_val x fuel (']' :: rest) hfx rfl
      show parseElems (fuel + 1) (dumps x ++ (']' :: rest)) = some ([x], rest)
      rw [parseElems_step, hval]
      show (if (']' : Char) = ',' then
          match parseElems fuel (skipWs rest) with
          | some (vs, rest3) => some (x :: vs, rest3)
          | none => none
        else if (']' : Char) = ']' then some ([x], rest)
        else none) = some ([x], rest)
      rw [if_neg (show ¬ (']' : Char) = ',' by decide), if_pos (rfl : (']' : Char) = ']')]
  | x, x2 :: xs2, fuel + 1, rest, hf => by
      have h1 := one_le_dumps_length x
      have hlens : (dumpsTailElems (x2 :: xs2)).length
          = (dumps x2).length + (dumpsTailElems xs2).length + 2 := by
        simp only [dumpsTailElems, List.length_cons, List.length_append]
        try omega
      have hfx : (dumps x).length < fuel := by omega
      have hfx2 : (dumps x2).length + (dumpsTailElems xs2).length + 1 < fuel := by omega
      have harg : dumps x ++ (dumpsTailElems (x2 :: xs2) ++ ']' :: rest)
          = dumps x ++ (',' :: ' ' :: (dumps x2 ++ (dumpsTailElems xs2 ++ ']' :: rest))) := by
        simp [dumpsTailElems, List.append_assoc]
      have hval := rt_val x fuel
        (',' :: ' ' :: (dumps x2 ++ (dumpsTailElems xs2 ++ ']' :: rest))) hfx rfl
      have htail := rt_elems x2 xs2 fuel rest hfx2
      rw [harg, parseElems_step, hval]
      show (match skipWs (',' :: ' ' :: (dumps x2 ++ (dumpsTailElems xs2 ++ ']' :: rest))) with
        | [] => none
        | c :: rest2 =>
          if c = ',' then
            match parseElems fuel (skipWs rest2) with
            | some (vs, rest3) => some (x :: vs, rest3)
            | none => none
          else if c = ']' then some ([x], rest2)
          else none) = some (x :: x2 :: xs2, rest)
      rw [skipWs_cons (by decide)]
      show (match parseElems fuel
          (skipWs (' ' :: (dumps x2 ++ (dumpsTailElems xs2 ++ ']' :: rest)))) with
        | some (vs, rest3) => some (x :: vs, rest3)
        | none => none) = some (x :: x2 :: xs2, rest)
      rw [skipWs_space, skipWs_dumps x2, htail]
  termination_by x xs _ _ _ => sizeOf x + sizeOf xs

/-- For every nonempty member list, reading back its serialized members up to
the closing brace yields the list. -/
theorem rt_members : ∀ (k : List Char) (v : Json) (ms : List (List Char × Json))
    (fuel : Nat) (rest : List Char),
    (strChars k).length + (dumps v).length + (dumpsTailMembers ms).length + 2 < fuel →
    parseMembers fuel (strChars k ++ (':' :: ' ' ::
      (dumps v ++ (dumpsTailMembers ms ++ '}' :: rest)))) = some ((k, v) :: ms, rest)
  | k, v, [], fuel + 1, rest, hf => by
      have hks : (strChars k).length = (k.flatMap escChar).length + 2 := by
        simp [strChars]
      have hkf : k.length < fuel := by
        have := length_le_flatMap k
        omega
      have hfv : (dumps v).length < fuel := by omega
      have harg : strChars k ++ (':' :: ' ' ::
            (dumps v ++ (dumpsTailMembers ([] : List (List Char × Json)) ++ '}' :: rest)))
          = '"' :: (k.flatMap escChar ++ '"' :: (':' :: ' ' ::
              (dumps v ++ ('}' :: rest)))) := by
        simp [strChars, dumpsTailMembers]
      rw [harg, parseMembers_quote,
        parseStrBody_strChars k (':' :: ' ' :: (dumps v ++ ('}' :: rest))) fuel hkf]
      show (match skipWs (':' :: ' ' :: (dumps v ++ ('}' :: rest))) with
        | [] => none
        | c2 :: rest2 =>
          if c2 = ':' then
            match parseValue fuel (skipWs rest2) with
            | none => none
            | some (v2, rest3) =>
              match skipWs rest3 with
              | [] => none
              | c3 :: rest4 =>
                if c3 = ',' then
                  match parseMembers fuel (skipWs rest4) with
                  | some (ms2, rest5) => some ((k, v2) :: ms2, rest5)
                  | none => none
                else if c3 = '}' then some ([(k, v2)], rest4)
                else none
          else none) = some ((k, v) :: [], rest)
      rw [skipWs_cons (by decide)]
      show (match parseValue fuel (skipWs (' ' :: (dumps v ++ ('}' :: rest)))) with
        | none => none
        | some (v2, rest3) =>
          match skipWs rest3 with
          | [] => none
          | c3 :: rest4 =>
            if c3 = ',' then
              match parseMembers fuel (skipWs rest4) with
              | some (ms2, rest5) => some ((k, v2) :: ms2, rest5)
              | none => none
            else if c3 = '}' then some ([(k, v2)], rest4)
            else none) = some ((k, v) :: [], rest)
      rw [skipWs_space, skipWs_dumps v, rt_val v fuel ('}' :: rest) hfv rfl]
      show (match skipWs ('}' :: rest) with
        | [] => none
        | c3 :: rest4 =>
          if c3 = ',' then
            match parseMembers fuel (skipWs rest4) with
            | some (ms2, rest5) => some ((k, v) :: ms2, rest5)
            | none => none
          else if c3 = '}' then some ([(k, v)], rest4)
          else none) = some ((k, v) :: [], rest)
      rw [skipWs_cons (by decide)]
      show (if ('}' : Char) = ',' then
          match parseMembers fuel (skipWs rest) with
          | some (ms2, rest5) => some ((k, v) :: ms2, rest5)
          | none => none
        else if ('}' : Char) = '}' then some ([(k, v)], rest)
        else none) = some ((k, v) :: [], rest)
      rw [if_neg (show ¬ ('}' : Char) = ',' by decide), if_pos (rfl : ('}' : Char) = '}')]
  | k, v, (k2, v2) :: ms2, fuel + 1, rest, hf => by
      have hks : (strChars k).length = (k.flatMap escChar).length + 2 := by
        simp [strChars]
      have hkf : k.length < fuel := by
        have := length_le_flatMap k
        omega
      have hfv : (dumps v).length < fuel := by omega
      have harg : strChars k ++ (':' :: ' ' ::
            (dumps v ++ (dumpsTailMembers ((k2, v2) :: ms2) ++ '}' :: rest)))
          = '"' :: (k.flatMap escChar ++ '"' :: (':' :: ' ' ::
              (dumps v ++ (dumpsTailMembers ((k2, v2) :: ms2) ++ '}' :: rest)))) := by
        simp [strChars]
      rw [harg, parseMembers_quote,
        parseStrBody_strChars k (':' :: ' ' ::
          (dumps v ++ (dumpsTailMembers ((k2, v2) :: ms2) ++ '}' :: rest))) fuel hkf]
      show (match skipWs (':' :: ' ' ::
          (dumps v ++ (dumpsTailMembers ((k2, v2) :: ms2) ++ '}' :: rest))) with
        | [] => none
        | c2 :: rest2 =>
          if c2 = ':' then
            match parseValue fuel (skipWs rest2) with
            | none => none
            | some (v3, rest3) =>
              match skipWs rest3 with
              | [] => none
              | c3 :: rest4 =>
                if c3 = ',' then
                  match parseMembers fuel (skipWs rest4) with
                  | some (ms3, rest5) => some ((k, v3) :: ms3, rest5)
                  | none => none
                else if c3 = '}' then some ([(k, v3)], rest4)
                else none
          else none) = some ((k, v) :: (k2, v2) :: ms2, rest)
      rw [skipWs_cons (by decide)]
      show (match parseValue fuel (skipWs (' ' ::
          (dumps v ++ (dumpsTailMembers ((k2, v2) :: ms2) ++ '}' :: rest)))) with
        | none => none
        | some (v3, rest3) =>
          match skipWs rest3 with
          | [] => none
          | c3 :: rest4 =>
            if c3 = ',' then
              match parseMembers fuel (skipWs rest4) with
              | some (ms3, rest5) => some ((k, v3) :: ms3, rest5)
              | none => none
            else if c3 = '}' then some ([(k, v3)], rest4)
            else none) = some ((k, v) :: (k2, v2) :: ms2, rest)
      rw [skipWs_space, skipWs_dumps v]
      have hlens : (dumpsTailMembers ((k2, v2) :: ms2)).length
          = (strChars k2).length + (dumps v2).length + (dumpsTailMembers ms2).length + 4 := by
        simp only [dumpsTailMembers, List.length_cons, List.length_append]
        try omega
      have hftail : (strChars k2).length + (dumps v2).length
          + (dumpsTailMembers ms2).length + 2 < fuel := by omega
      have harg2 : dumpsTailMembers ((k2, v2) :: ms2) ++ '}' :: rest
          = ',' :: ' ' :: (strChars k2 ++ (':' :: ' ' ::
              (dumps v2 ++ (dumpsTailMembers ms2 ++ '}' :: rest)))) := by
        simp [dumpsTailMembers, List.append_assoc]
      have hval := rt_val v fuel (dumpsTailMembers ((k2, v2) :: ms2) ++ '}' :: rest) hfv
        (by rw [harg2]; rfl)
      have htail := rt_members k2 v2 ms2 fuel rest hftail
      rw [hval, harg2]
      show (match skipWs (',' :: ' ' :: (strChars k2 ++ (':' :: ' ' ::
          (dumps v2 ++ (dumpsTailMembers ms2 ++ '}' :: rest))))) with
        | [] => none
        | c3 :: rest4 =>
          if c3 = ',' then
            match parseMembers fuel (skipWs rest4) with
            | some (ms3, rest5) => some ((k, v) :: ms3, rest5)
            | none => none
          else if c3 = '}' then some ([(k, v)], rest4)
          else none) = some ((k, v) :: (k2, v2) :: ms2, rest)
      rw [skipWs_cons (by decide)]
      show (match parseMembers fuel (skipWs (' ' :: (strChars k2 ++ (':' :: ' ' ::
          (dumps v2 ++ (dumpsTailMembers ms2 ++ '}' :: rest)))))) with
        | some (ms3, rest5) => some ((k, v) :: ms3, rest5)
        | none => none) = some ((k, v) :: (k2, v2) :: ms2, rest)
      rw [skipWs_space, skipWs_strChars, htail]
  termination_by _ v ms _ _ _ => sizeOf v + sizeOf ms
end

/-- Deserializing the serialization of any value recovers the value: the
full-line reader is a left inverse of `dumps`. -/
theorem loads_dumps (j : Json) : loads (dumps j) = some j := by
  unfold loads
  have h := rt_val j ((dumps j).length + 1) [] (by omega) rfl
  rw [List.append_nil] at h
  rw [h]
  rfl

/-- Characters with distinct codes are distinct. -/
theorem ne_nl_of_toNat {c : Char} (h : c.toNat ≠ 10) : c ≠ '\n' := by
  intro he
  subst he
  exact h (by decide)

/-- Hex digits are never a newline. -/
theorem hexDig_ne_nl {d : Nat} (h : d < 16) : hexDig d ≠ '\n' := by
  have key : ∀ e : Fin 16, hexDig e.val ≠ '\n' := by decide
  exact key ⟨d, h⟩

/-- Escapes never contain a raw newline (a newline escapes to `\n`). -/
theorem escChar_no_nl (c : Char) : ∀ x ∈ escChar c, x ≠ '\n' := by
  have hhex : ∀ (n : Nat) (x : Char), x ∈ hex4 n → x ≠ '\n' := by
    intro n x hx
    simp only [hex4, List.mem_cons, List.not_mem_nil, or_false] at hx
    rcases hx with rfl | rfl | rfl | rfl <;>
      exact hexDig_ne_nl (Nat.mod_lt _ (by omega))
  intro x hx
  by_cases h1 : c = '"'
  · subst h1
    have hx2 : x ∈ ['\\', '"'] := hx
    fin_cases hx2 <;> decide
  by_cases h2 : c = '\\'
  · subst h2
    have hx2 : x ∈ ['\\', '\\'] := hx
    fin_cases hx2 <;> decide
  by_cases h3 : c = '\n'
  · subst h3
    have hx2 : x ∈ ['\\', 'n'] := hx
    fin_cases hx2 <;> decide
  by_cases h4 : c = '\r'
  · subst h4
    have hx2 : x ∈ ['\\', 'r'] := hx
    fin_cases hx2 <;> decide
  by_cases h5 : c = '\t'
  · subst h5
    have hx2 : x ∈ ['\\', 't'] := hx
    fin_cases hx2 <;> decide
  by_cases h6 : c.toNat = 8
  · have hc : c = Char.ofNat 8 := by rw [← h6, Char.ofNat_toNat]
    subst hc
    have hx2 : x ∈ ['\\', 'b'] := hx
    fin_cases hx2 <;> decide
  by_cases h7 : c.toNat = 12
  · have hc : c = Char.ofNat 12 := by rw [← h7, Char.ofNat_toNat]
    subst hc
    have hx2 : x ∈ ['\\', 'f'] := hx
    fin_cases hx2 <;> decide
  by_cases h8 : c.toNat < 0x20
  · have hesc : escChar c = '\\' :: 'u' :: hex4 c.toNat := by
      simp only [escChar, if_neg h1, if_neg h2, if_neg h3, if_neg h4, if_neg h5, if_neg h6,
        if_neg h7, if_pos h8]
    rw [hesc] at hx
    rcases List.mem_cons.mp hx with rfl | hx
    · decide
    rcases List.mem_cons.mp hx with rfl | hx
    · decide
    exact hhex c.toNat x hx
  by_cases h9 : c.toNat ≤ 0x7E
  · have hesc : escChar c = [c] := by
      simp only [escChar, if_neg h1, if_neg h2, if_neg h3, if_neg h4, if_neg h5, if_neg h6,
        if_neg h7, if_neg h8, if_pos h9]
    rw [hesc] at hx
    rcases List.mem_singleton.mp hx with rfl
    exact ne_nl_of_toNat (by omega)
  by_cases h10 : c.toNat < 0x10000
  · have hesc : escChar c = '\\' :: 'u' :: hex4 c.toNat := by
      simp only [escChar, if_neg h1, if_neg h2, if_neg h3, if_neg h4, if_neg h5, if_neg h6,
        if_neg h7, if_neg h8, if_neg h9, if_pos h10]
    rw [hesc] at hx
    rcases List.mem_cons.mp hx with rfl | hx
    · decide
    rcases List.mem_cons.mp hx with rfl | hx
    · decide
    exact hhex c.toNat x hx
  · have hesc : escChar c =
        ('\\' :: 'u' :: hex4 (0xD800 + (c.toNat - 0x10000) / 0x400)) ++
          ('\\' :: 'u' :: hex4 (0xDC00 + (c.toNat - 0x10000) % 0x400)) := by
      simp only [escChar, if_neg h1, if_neg h2, if_neg h3, if_neg h4, if_neg h5, if_neg h6,
        if_neg h7, if_neg h8, if_neg h9, if_neg h10]
    rw [hesc] at hx
    rcases List.mem_append.mp hx with hx | hx <;>
      (rcases List.mem_cons.mp hx with rfl | hx
       · decide
       rcases List.mem_cons.mp hx with rfl | hx
       · decide
       exact hhex _ x hx)

/-- Serialized string literals never contain a raw newline. -/
theorem strChars_no_nl (s : List Char) : ∀ x ∈ strChars s, x ≠ '\n' := by
  intro x hx
  simp only [strChars, List.mem_cons, List.mem_append, List.mem_singleton,
    List.not_mem_nil, or_false] at hx
  rcases hx with rfl | hx | rfl
  · decide
  · rw [List.mem_flatMap] at hx
    obtain ⟨a, _, ha⟩ := hx
    exact escChar_no_nl a x ha
  · decide

/-- Printed integers never contain a newline. -/
theorem intChars_no_nl (i : Int) : ∀ x ∈ intChars i, x ≠ '\n' := by
  intro x hx
  unfold intChars at hx
  have hdig : ∀ y ∈ natChars i.natAbs, y ≠ '\n' := by
    intro y hy
    have := natChars_all_digits i.natAbs y hy
    simp only [isDigitCh, Bool.and_eq_true, decide_eq_true_eq] at this
    exact ne_nl_of_toNat (by omega)
  by_cases hi : i < 0
  · rw [if_pos hi] at hx
    rcases List.mem_cons.mp hx with rfl | hx
    · decide
    · exact hdig x hx
  · rw [if_neg hi] at hx
    exact hdig x hx

mutual
/-- Serialized values never contain a raw newline. -/
theorem dumps_no_nl : ∀ (j : Json), ∀ x ∈ dumps j, x ≠ '\n'
  | .null => by
      intro x hx
      have hx2 : x ∈ ['n', 'u', 'l', 'l'] := hx
      fin_cases hx2 <;> decide
  | .bool true => by
      intro x hx
      have hx2 : x ∈ ['t', 'r', 'u', 'e'] := hx
      fin_cases hx2 <;> decide
  | .bool false => by
      intro x hx
      have hx2 : x ∈ ['f', 'a', 'l', 's', 'e'] := hx
      fin_cases hx2 <;> decide
  | .num i => intChars_no_nl i
  | .str s => strChars_no_nl s
  | .arr [] => by
      intro x hx
      have hx2 : x ∈ ['[', ']'] := hx
      fin_cases hx2 <;> decide
  | .arr (y :: ys) => by
      intro x hx
      rcases List.mem_cons.mp hx with rfl | hx
      · decide
      rcases List.mem_append.mp hx with hx | hx
      · rcases List.mem_append.mp hx with hx | hx
        · exact dumps_no_nl y x hx
        · exact dumpsTailElems_no_nl ys x hx
      · have hx2 : x = ']' := List.mem_singleton.mp hx
        subst hx2
        decide
  | .obj [] => by
      intro x hx
      have hx2 : x ∈ ['{', '}'] := hx
      fin_cases hx2 <;> decide
  | .obj (m :: ms) => by
      intro x hx
      rcases List.mem_cons.mp hx with rfl | hx
      · decide
      rcases List.mem_append.mp hx with hx | hx
      · exact strChars_no_nl m.1 x hx
      rcases List.mem_cons.mp hx with rfl | hx
      · decide
      rcases List.mem_cons.mp hx with rfl | hx
      · decide
      rcases List.mem_append.mp hx with hx | hx
      · rcases List.mem_append.mp hx with hx | hx
        · exact dumps_no_nl m.2 x hx
        · exact dumpsTailMembers_no_nl ms x hx
      · have hx2 : x = '}' := List.mem_singleton.mp hx
        subst hx2
        decide

/-- Serialized element tails never contain a raw newline. -/
theorem dumpsTailElems_no_nl : ∀ (xs : List Json), ∀ x ∈ dumpsTailElems xs, x ≠ '\n'
  | [] => by intro x hx; cases hx
  | y :: ys => by
      intro x hx
      rcases List.mem_cons.mp hx with rfl | hx
      · decide
      rcases List.mem_cons.mp hx with rfl | hx
      · decide
      rcases List.mem_append.mp hx with hx | hx
      · exact dumps_no_nl y x hx
      · exact dumpsTailElems_no_nl ys x hx

/-- Serialized member tails never contain a raw newline. -/
theorem dumpsTailMembers_no_nl : ∀ (ms : List (List Char × Json)), ∀ x ∈ dumpsTailMembers ms,
    x ≠ '\n'
  | [] => by intro x hx; cases hx
  | m :: ms => by
      intro x hx
      rcases List.mem_cons.mp hx with rfl | hx
      · decide
      rcases List.mem_cons.mp hx with rfl | hx
      · decide
      rcases List.mem_append.mp hx with hx | hx
      · exact strChars_no_nl m.1 x hx
      rcases List.mem_cons.mp hx with rfl | hx
      · decide
      rcases List.mem_cons.mp hx with rfl | hx
      · decide
      rcases List.mem_append.mp hx with hx | hx
      · exact dumps_no_nl m.2 x hx
      · exact dumpsTailMembers_no_nl ms x hx
end

/-- Splitting after a newline-free line followed by a newline yields that line
and splits the remainder. -/
theorem splitNL_line : ∀ (l : List Char), (∀ c ∈ l, c ≠ '\n') → ∀ (rest : List Char),
    splitNL (l ++ '\n' :: rest) = (l :: (splitNL rest).1, (splitNL rest).2)
  | [], _, rest => by simp [splitNL]
  | c :: t, hl, rest => by
      have hc : c ≠ '\n' := hl c (by simp)
      have ht := splitNL_line t (fun x hx => hl x (by simp [hx])) rest
      simp [splitNL, hc, ht]

/-- Splitting the concatenation of newline-terminated serialized records
yields exactly one line per record and no trailing fragment. -/
theorem splitNL_dumps_lines : ∀ (rs : List Json),
    splitNL ((rs.map (fun r => dumps r ++ ['\n'])).flatten) = (rs.map dumps, [])
  | [] => rfl
  | r :: rs => by
      rw [List.map_cons, List.flatten_cons, List.append_assoc, List.singleton_append,
        splitNL_line (dumps r) (dumps_no_nl r), splitNL_dumps_lines rs, List.map_cons]

/-! ### Output plugins (`src/plugins/output/`)

Each plugin is a state-passing function; externally observable side effects
(bytes reaching the disk, broker deliveries, degraded-mode log lines) are
returned as explicit events. -/

/-- Observable sink side effects. -/
inductive SinkEvent where
  | wouldSendLog (topic : String) (payload : List Char) : SinkEvent
  | producerSend (topic : String) (key : Option Json) (value : Json) : SinkEvent

/-- An open CPython text file handle: bytes already on disk, the userspace
write buffer, and the closed flag. -/
structure FileHandle where
  disk : List Char
  buffer : List Char
  closed : Bool
deriving DecidableEq

/-- CPython `file.write`: append to the buffer (the plugin only writes to
handles it opened and has not closed). -/
def FileHandle.write (h : FileHandle) (s : List Char) : FileHandle :=
  { h with buffer := h.buffer ++ s }

/-- CPython `file.close()`: flush the buffer to disk and mark closed; on an
already-closed handle it is a documented no-op — no error and no second
flush. -/
def FileHandle.close (h : FileHandle) : FileHandle :=
  if h.closed then h
  else { disk := h.disk ++ h.buffer, buffer := [], closed := true }

/-- Model of `plugins/output/file.py:FileOutputPlugin`. -/
structure FileOutputPlugin where
  file_path : String
  file : FileHandle
deriving DecidableEq

/-- Constructor: `self.file = open(file_path, "w")` — mode `"w"` truncates,
so whatever content the path held before (`prior`), the handle starts over an
empty file. -/
def FileOutputPlugin.init (file_path : String) (prior : Option (List Char)) :
    FileOutputPlugin :=
  { file_path := file_path, file := { disk := [], buffer := [], closed := false } }

/-- `output`: `self.file.write(json.dumps(event) + "\n")`. -/
def FileOutputPlugin.output (p : FileOutputPlugin) (event : Json) : FileOutputPlugin :=
  { p with file := p.file.write (dumps event ++ ['\n']) }

/-- `close`: `if self.file: self.file.close()` — the handle object is always
truthy, so this always closes the underlying file. -/
def FileOutputPlugin.close (p : FileOutputPlugin) : FileOutputPlugin :=
  { p with file := p.file.close }

/-- Model of `plugins/output/terminal.py:TerminalOutputPlugin`; it holds no
resource. -/
structure TerminalOutputPlugin where
deriving DecidableEq

/-- `close`: `pass`. -/
def TerminalOutputPlugin.close (p : TerminalOutputPlugin) : TerminalOutputPlugin := p

/-- The `kafka-python` producer as the Kafka plugin uses it: a buffer of
asynchronously pending sends (`send` is fire-and-forget) and a closed flag. -/
structure KafkaProducerModel where
  pending : List (String × Option Json × Json)
  closed : Bool

/-- `producer.send(topic, key, value)`: enqueue asynchronously. -/
def KafkaProducerModel.send (pr : KafkaProducerModel) (topic : String) (key : Option Json)
    (value : Json) : KafkaProducerModel :=
  { pr with pending := pr.pending ++ [(topic, key, value)] }

/-- `producer.flush()`: deliver every pending send. -/
def KafkaProducerModel.flush (pr : KafkaProducerModel) :
    KafkaProducerModel × List SinkEvent :=
  ({ pr with pending := [] },
    pr.pending.map (fun s => SinkEvent.producerSend s.1 s.2.1 s.2.2))

/-- `producer.close()`: a no-op when already closed (kafka-python logs
"already closed" and returns). -/
def KafkaProducerModel.close (pr : KafkaProducerModel) : KafkaProducerModel :=
  if pr.closed then pr else { pr with closed := true }

/-- The part of a Kafka configuration document that the claims touch:
`topic` and `key_field` (`none` = key absent from the document); the remaining
recognized keys only tune the underlying client's transport. -/
structure KafkaConfigDoc where
  topic : Option String
  key_field : Option String

/-- Model of `plugins/output/kafka.py:KafkaOutputPlugin`. -/
structure KafkaOutputPlugin where
  producer : Option KafkaProducerModel
  topic : String
  key_field : Option String

/-- Model of `KafkaOutputPlugin.__init__`.  `kafkaAvailable` is the module
flag `KAFKA_AVAILABLE` (false when `kafka-python` failed to import);
`configDoc` is the parsed configuration document when `config_file` was
given and exists; `connectResult` is the outcome of `KafkaProducer(...)`:
`some` a fresh producer on success, `none` when construction raised (the
constructor catches the exception and sets `self.producer = None`).  When the
library is missing, the constructor returns early with `self.producer = None`
and the parameter topic and key field. -/
def KafkaOutputPlugin.init (kafkaAvailable : Bool) (configDoc : Option KafkaConfigDoc)
    (topic : String) (key_field : Option String)
    (connectResult : Option KafkaProducerModel) : KafkaOutputPlugin :=
  if !kafkaAvailable then { producer := none, topic := topic, key_field := key_field }
  else
    match configDoc with
    | some doc =>
        { producer := connectResult, topic := doc.topic.getD topic,
          key_field := match doc.key_field with | some k => some k | none => key_field }
    | none => { producer := connectResult, topic := topic, key_field := key_field }

/-- Dict lookup `event[self.key_field]` on a record. -/
def Json.getField (j : Json) (f : String) : Option Json :=
  match j with
  | .obj ms => (ms.find? (fun m => m.1 == f.toList)).map (fun m => m.2)
  | _ => none

/-- Model of `KafkaOutputPlugin.output`: when the library is missing or the
producer is `None`, print the would-send line and return (never raising);
otherwise extract the key field if present and publish asynchronously. -/
def KafkaOutputPlugin.output (p : KafkaOutputPlugin) (kafkaAvailable : Bool) (event : Json) :
    KafkaOutputPlugin × List SinkEvent :=
  if !kafkaAvailable then (p, [SinkEvent.wouldSendLog p.topic (dumps event)])
  else
    match p.producer with
    | none => (p, [SinkEvent.wouldSendLog p.topic (dumps event)])
    | some pr =>
        let key : Option Json :=
          match p.key_field with
          | some f => event.getField f
          | none => none
        ({ p with producer := some (pr.send p.topic key event) }, [])

/-- Model of `KafkaOutputPlugin.close`: `if KAFKA_AVAILABLE and self.producer:
self.producer.flush(); self.producer.close()`. -/
def KafkaOutputPlugin.close (p : KafkaOutputPlugin) (kafkaAvailable : Bool) :
    KafkaOutputPlugin × List SinkEvent :=
  if kafkaAvailable then
    match p.producer with
    | some pr =>
        let fl := pr.flush
        ({ p with producer := some fl.1.close }, fl.2)
    | none => (p, [])
  else (p, [])

/-! ### The emission engine (`generate_events.py:generate_events_at_rate`)

The run loop is embedded as a fuel-indexed step function over an explicit
loop state, producing the run's observable actions.  Wall-clock readings,
the rate and sleep durations are rationals; the environment supplies the
value of each `time.time()` call, the outcome of each loop body, and the
state of the `terminating` flag at each of its two observation points. -/

/-- Outcome of one loop body (`generator.generate_event()` followed by
`output_plugin.output(event)`): success, an ordinary exception, or a
KeyboardInterrupt. -/
inductive BodyOutcome where
  | ok : BodyOutcome
  | exn : BodyOutcome
  | kbd : BodyOutcome
deriving DecidableEq

/-- Observable actions of one run, in program order. -/
inductive Action where
  | emit : Action
  | sleep (d : ℚ) : Action
  | statsBlock : Action
  | activityTick : Action
  | interruptedNote : Action
  | summaryLine (events : Nat) : Action
  | closeSink : Action
deriving DecidableEq

/-- Configuration and environment of one run of `generate_events_at_rate`:
the arguments `rate`, `count`, `stats_interval`; `startTime` is the
`time.time()` reading stored in `start_time`, `activityStart` the one stored
in `last_activity_update`; `now k` is the `current_time` reading of iteration
`k`; `body k` the outcome of iteration `k`'s generate-and-output; `sigGuard k`
and `sigSleep k` tell whether the signal handler has set `terminating` by the
time of iteration `k`'s loop-guard check and sleep check; `outputType` is
`output_plugin.__class__.__name__`. -/
structure RunCfg where
  rate : ℚ
  count : Option Nat
  stats_interval : ℚ
  startTime : ℚ
  activityStart : ℚ
  now : Nat → ℚ
  body : Nat → BodyOutcome
  sigGuard : Nat → Bool
  sigSleep : Nat → Bool
  outputType : String

/-- `should_display_stats = output_type != "TerminalOutputPlugin"`. -/
def shouldDisplayStats (cfg : RunCfg) : Bool :=
  cfg.outputType != "TerminalOutputPlugin"

/-- The loop's mutable locals: `i`, `events_generated`, `last_stats_time`,
`last_stats_count`, `stats_displayed`, `last_activity_update`.  The activity
spinner index only selects a glyph and is omitted. -/
structure LoopState where
  i : Nat
  events_generated : Nat
  last_stats_time : ℚ
  last_stats_count : Nat
  stats_displayed : Bool
  last_activity_update : ℚ
deriving DecidableEq

/-- Locals as initialized before the loop. -/
def initState (cfg : RunCfg) : LoopState :=
  { i := 0, events_generated := 0, last_stats_time := cfg.startTime, last_stats_count := 0,
    stats_displayed := false, last_activity_update := cfg.activityStart }

/-- `count is None or i < count`. -/
def countAllows : Option Nat → Nat → Bool
  | none, _ => true
  | some c, i => i < c

/-- `count is not None and i >= count`. -/
def countReached : Option Nat → Nat → Bool
  | none, _ => false
  | some c, i => c ≤ i

/-- The `while` guard: `(count is None or i < count) and not terminating`. -/
def loopGuard (cfg : RunCfg) (s : LoopState) : Bool :=
  countAllows cfg.count s.i && !(cfg.sigGuard s.i)

/-- One successful iteration, after the event was emitted: increment both
counters (lines 297-298); compute `target_time = start_time +
events_generated / rate` and `sleep_time = max(0, target_time -
current_time)` (lines 301-305); update the activity indicator when due
(lines 308-317); render the statistics block when the interval elapsed and
reset its counters (lines 320-364); sleep when `sleep_time > 0` and the next
record is still wanted and no signal arrived (lines 366-367). -/
def iterStep (cfg : RunCfg) (s : LoopState) : List Action × LoopState :=
  let s1 : LoopState := { s with i := s.i + 1, events_generated := s.events_generated + 1 }
  let target_time : ℚ := cfg.startTime + (s1.events_generated : ℚ) / cfg.rate
  let current_time : ℚ := cfg.now s.i
  let sleep_time : ℚ := max 0 (target_time - current_time)
  let doActivity : Bool := shouldDisplayStats cfg && s1.stats_displayed
      && decide ((1 : ℚ)/10 ≤ current_time - s1.last_activity_update)
  let s2 := if doActivity then { s1 with last_activity_update := current_time } else s1
  let actsA := if doActivity then [Action.activityTick] else []
  let doStats : Bool := shouldDisplayStats cfg
      && decide (cfg.stats_interval ≤ current_time - s2.last_stats_time)
  let s3 := if doStats then
      { s2 with
        stats_displayed := true
        last_stats_time := current_time
        last_stats_count := s2.events_generated }
    else s2
  let actsS := if doStats then [Action.statsBlock] else []
  let doSleep : Bool := decide (0 < sleep_time) && countAllows cfg.count s1.i
      && !(cfg.sigSleep s.i)
  let actsSleep := if doSleep then [Action.sleep sleep_time] else []
  (Action.emit :: (actsA ++ actsS ++ actsSleep), s3)

/-- How the `try` block of the loop ends. -/
inductive LoopExit where
  | normal : LoopExit
  | kbdRaised : LoopExit
  | exnRaised : LoopExit
  | fuelOut : LoopExit
deriving DecidableEq

/-- The run loop (lines 291-371): while the guard holds, run one body; a
raising body leaves the loop with the exception pending; after a successful
body, the bounded-count check at line 370 breaks out.  `fuel` bounds the
number of inspected iterations so the function is total; `fuelOut` marks a
run that is still going. -/
def runLoop (cfg : RunCfg) : Nat → LoopState → List Action × LoopState × LoopExit
  | 0, s => ([], s, .fuelOut)
  | fuel + 1, s =>
    if loopGuard cfg s then
      match cfg.body s.i with
      | .exn => ([], s, .exnRaised)
      | .kbd => ([], s, .kbdRaised)
      | .ok =>
          let step := iterStep cfg s
          if countReached cfg.count step.2.i then (step.1, step.2, .normal)
          else
            let rec2 := runLoop cfg fuel step.2
            (step.1 ++ rec2.1, rec2.2)
    else ([], s, .normal)

/-- Whether the whole call returned normally, let an exception escape, or is
still running (out of fuel). -/
inductive RunOutcome where
  | returned : RunOutcome
  | raised : RunOutcome
  | running : RunOutcome
deriving DecidableEq

/-- Model of `generate_events_at_rate`: run the loop from fresh locals; the
`except KeyboardInterrupt` handler prints the interruption note (line 375);
the `finally` block (lines 377-404) always prints the final summary and then
calls `output_plugin.close()`; an ordinary exception propagates to the caller
after the `finally` block ran. -/
def generate_events_at_rate (cfg : RunCfg) (fuel : Nat) :
    List Action × LoopState × RunOutcome :=
  let r := runLoop cfg fuel (initState cfg)
  match r.2.2 with
  | .fuelOut => (r.1, r.2.1, .running)
  | .normal =>
      (r.1 ++ [Action.summaryLine r.2.1.events_generated, Action.closeSink], r.2.1, .returned)
  | .kbdRaised =>
      (r.1 ++ [Action.interruptedNote, Action.summaryLine r.2.1.events_generated,
        Action.closeSink], r.2.1, .returned)
  | .exnRaised =>
      (r.1 ++ [Action.summaryLine r.2.1.events_generated, Action.closeSink], r.2.1, .raised)

/-- Model of `main`'s call site (lines 462-466): `main` wraps the call in its
own `try/finally` whose `finally` calls `output_plugin.close()` once more,
whether or not the call raised. -/
def mainRun (cfg : RunCfg) (fuel : Nat) : List Action × LoopState × RunOutcome :=
  let g := generate_events_at_rate cfg fuel
  match g.2.2 with
  | .running => g
  | _ => (g.1 ++ [Action.closeSink], g.2.1, g.2.2)

/-- Action classifiers and counters over a run trace. -/
def isEmit : Action → Bool
  | .emit => true
  | _ => false

/-- Sleep classifier. -/
def isSleepAct : Action → Bool
  | .sleep _ => true
  | _ => false

/-- Statistics-block classifier. -/
def isStatsBlock : Action → Bool
  | .statsBlock => true
  | _ => false

/-- Activity-indicator classifier. -/
def isActivityTick : Action → Bool
  | .activityTick => true
  | _ => false

/-- Sink-close classifier. -/
def isCloseSink : Action → Bool
  | .closeSink => true
  | _ => false

/-- Final-summary classifier. -/
def isSummaryLine : Action → Bool
  | .summaryLine _ => true
  | _ => false

/-- Interruption-note classifier. -/
def isInterruptedNote : Action → Bool
  | .interruptedNote => true
  | _ => false

/-- Number of successful emissions in a trace. -/
def countEmits (tr : List Action) : Nat := tr.countP isEmit

/-- Number of sink closes in a trace. -/
def countCloses (tr : List Action) : Nat := tr.countP isCloseSink

/-- Number of final summaries in a trace. -/
def countSummaries (tr : List Action) : Nat := tr.countP isSummaryLine

/-- Number of statistics blocks in a trace. -/
def countStatsBlocks (tr : List Action) : Nat := tr.countP isStatsBlock

/-- Number of activity-indicator updates in a trace. -/
def countActivityTicks (tr : List Action) : Nat := tr.countP isActivityTick

/-- Number of interruption notes in a trace. -/
def countInterruptedNotes (tr : List Action) : Nat := tr.countP isInterruptedNote

/-! ### Engine lemmas -/

/-- One successful iteration advances both counters by exactly one. -/
theorem iterStep_counters (cfg : RunCfg) (s : LoopState) :
    (iterStep cfg s).2.events_generated = s.events_generated + 1
      ∧ (iterStep cfg s).2.i = s.i + 1 := by
  simp only [iterStep]
  split_ifs <;> simp

/-- One successful iteration emits exactly one record, and performs no close,
no summary and no interruption note. -/
theorem iterStep_actions (cfg : RunCfg) (s : LoopState) :
    countEmits (iterStep cfg s).1 = 1
      ∧ countCloses (iterStep cfg s).1 = 0
      ∧ countSummaries (iterStep cfg s).1 = 0
      ∧ countInterruptedNotes (iterStep cfg s).1 = 0 := by
  simp only [iterStep, countEmits, countCloses, countSummaries, countInterruptedNotes]
  split_ifs <;>
    simp [List.countP_cons, List.countP_append, isEmit, isCloseSink, isSummaryLine,
      isInterruptedNote]

/-- With statistics display off (the terminal sink), an iteration renders no
statistics block and no activity tick. -/
theorem iterStep_no_stats (cfg : RunCfg) (s : LoopState)
    (h : shouldDisplayStats cfg = false) :
    countStatsBlocks (iterStep cfg s).1 = 0 ∧ countActivityTicks (iterStep cfg s).1 = 0 := by
  simp only [iterStep, countStatsBlocks, countActivityTicks, h]
  simp only [Bool.false_and, if_false, Bool.false_eq_true]
  split_ifs <;>
    simp [List.countP_cons, List.countP_append, isStatsBlock, isActivityTick]

/-- Emission counts add over trace concatenation. -/
theorem countEmits_append (a b : List Action) :
    countEmits (a ++ b) = countEmits a + countEmits b := by
  simp [countEmits, List.countP_append]

/-- Close counts add over trace concatenation. -/
theorem countCloses_append (a b : List Action) :
    countCloses (a ++ b) = countCloses a + countCloses b := by
  simp [countCloses, List.countP_append]

/-- Summary counts add over trace concatenation. -/
theorem countSummaries_append (a b : List Action) :
    countSummaries (a ++ b) = countSummaries a + countSummaries b := by
  simp [countSummaries, List.countP_append]

/-- Interruption-note counts add over trace concatenation. -/
theorem countInterruptedNotes_append (a b : List Action) :
    countInterruptedNotes (a ++ b) = countInterruptedNotes a + countInterruptedNotes b := by
  simp [countInterruptedNotes, List.countP_append]

/-- Statistics-block counts add over trace concatenation. -/
theorem countStatsBlocks_append (a b : List Action) :
    countStatsBlocks (a ++ b) = countStatsBlocks a + countStatsBlocks b := by
  simp [countStatsBlocks, List.countP_append]

/-- Activity-tick counts add over trace concatenation. -/
theorem countActivityTicks_append (a b : List Action) :
    countActivityTicks (a ++ b) = countActivityTicks a + countActivityTicks b := by
  simp [countActivityTicks, List.countP_append]

/-- Over any stretch of the run loop, the counter grows by exactly the number
of emit actions in the produced trace, and `i` stays in lock-step with it. -/
theorem runLoop_counter_law (cfg : RunCfg) : ∀ (fuel : Nat) (s : LoopState),
    (runLoop cfg fuel s).2.1.events_generated
        = s.events_generated + countEmits (runLoop cfg fuel s).1
      ∧ (runLoop cfg fuel s).2.1.i = s.i + countEmits (runLoop cfg fuel s).1
  | 0, s => by simp [runLoop, countEmits]
  | fuel + 1, s => by
      simp only [runLoop]
      by_cases hg : loopGuard cfg s
      · rw [if_pos hg]
        obtain ⟨hev, hi⟩ := iterStep_counters cfg s
        obtain ⟨hem, _, _, _⟩ := iterStep_actions cfg s
        rcases hb : cfg.body s.i with _ | _ | _ <;> simp only [hb]
        · by_cases hcr : countReached cfg.count (iterStep cfg s).2.i
          · rw [if_pos hcr]
            simp [hev, hi, hem]
          · rw [if_neg hcr]
            obtain ⟨ih1, ih2⟩ := runLoop_counter_law cfg fuel (iterStep cfg s).2
            simp only [countEmits_append, ih1, ih2, hev, hi, hem]
            omega
        · simp [countEmits]
        · simp [countEmits]
      · rw [if_neg hg]
        simp [countEmits]

/-- The loop itself never closes the sink, never prints the final summary,
and never prints the interruption note: those happen only in the handlers
after the loop. -/
theorem runLoop_no_close (cfg : RunCfg) : ∀ (fuel : Nat) (s : LoopState),
    countCloses (runLoop cfg fuel s).1 = 0 ∧ countSummaries (runLoop cfg fuel s).1 = 0
      ∧ countInterruptedNotes (runLoop cfg fuel s).1 = 0
  | 0, s => by simp [runLoop, countCloses, countSummaries, countInterruptedNotes]
  | fuel + 1, s => by
      simp only [runLoop]
      by_cases hg : loopGuard cfg s
      · rw [if_pos hg]
        obtain ⟨_, hc, hs, hn⟩ := iterStep_actions cfg s
        rcases hb : cfg.body s.i with _ | _ | _ <;> simp only [hb]
        · by_cases hcr : countReached cfg.count (iterStep cfg s).2.i
          · rw [if_pos hcr]
            simp [hc, hs, hn]
          · rw [if_neg hcr]
            obtain ⟨ih1, ih2, ih3⟩ := runLoop_no_close cfg fuel (iterStep cfg s).2
            simp [countCloses_append, countSummaries_append, countInterruptedNotes_append,
              ih1, ih2, ih3, hc, hs, hn]
        · simp [countCloses, countSummaries, countInterruptedNotes]
        · simp [countCloses, countSummaries, countInterruptedNotes]
      · rw [if_neg hg]
        simp [countCloses, countSummaries, countInterruptedNotes]

/-- With the terminal sink, the loop renders no statistics block and no
activity tick, ever. -/
theorem runLoop_no_stats (cfg : RunCfg) (h : shouldDisplayStats cfg = false) :
    ∀ (fuel : Nat) (s : LoopState),
    countStatsBlocks (runLoop cfg fuel s).1 = 0
      ∧ countActivityTicks (runLoop cfg fuel s).1 = 0
  | 0, s => by simp [runLoop, countStatsBlocks, countActivityTicks]
  | fuel + 1, s => by
      simp only [runLoop]
      by_cases hg : loopGuard cfg s
      · rw [if_pos hg]
        obtain ⟨hsb, hat⟩ := iterStep_no_stats cfg s h
        rcases hb : cfg.body s.i with _ | _ | _ <;> simp only [hb]
        · by_cases hcr : countReached cfg.count (iterStep cfg s).2.i
          · rw [if_pos hcr]
            simp [hsb, hat]
          · rw [if_neg hcr]
            obtain ⟨ih1, ih2⟩ := runLoop_no_stats cfg h fuel (iterStep cfg s).2
            simp [countStatsBlocks_append, countActivityTicks_append, ih1, ih2, hsb, hat]
        · simp [countStatsBlocks, countActivityTicks]
        · simp [countStatsBlocks, countActivityTicks]
      · rw [if_neg hg]
        simp [countStatsBlocks, countActivityTicks]

/-- In a bounded run, the loop performs at most `count - i` further
emissions. -/
theorem runLoop_emit_bound (cfg : RunCfg) (c : Nat) (hc : cfg.count = some c) :
    ∀ (fuel : Nat) (s : LoopState), countEmits (runLoop cfg fuel s).1 ≤ c - s.i
  | 0, s => by simp [runLoop, countEmits]
  | fuel + 1, s => by
      simp only [runLoop]
      by_cases hg : loopGuard cfg s
      · rw [if_pos hg]
        have hlt : s.i < c := by
          have := hg
          simp only [loopGuard, hc, countAllows, Bool.and_eq_true, decide_eq_true_eq] at this
          exact this.1
        obtain ⟨_, hi⟩ := iterStep_counters cfg s
        obtain ⟨hem, _, _, _⟩ := iterStep_actions cfg s
        rcases hb : cfg.body s.i with _ | _ | _ <;> simp only [hb]
        · by_cases hcr : countReached cfg.count (iterStep cfg s).2.i
          · rw [if_pos hcr]
            simp only [hem]
            omega
          · rw [if_neg hcr]
            have ih := runLoop_emit_bound cfg c hc fuel (iterStep cfg s).2
            simp only [countEmits_append, hem, hi] at *
            omega
        · simp [countEmits]
        · simp [countEmits]
      · rw [if_neg hg]
        simp [countEmits]

/-- A bounded run in which every body succeeds and no stop signal arrives
runs the loop to completion: the exit is normal and `i` reaches the count. -/
theorem runLoop_complete (cfg : RunCfg) (c : Nat) (hc : cfg.count = some c)
    (hok : ∀ k, cfg.body k = .ok) (hsig : ∀ k, cfg.sigGuard k = false) :
    ∀ (fuel : Nat) (s : LoopState), s.i ≤ c → c - s.i < fuel →
    (runLoop cfg fuel s).2.2 = .normal ∧ (runLoop cfg fuel s).2.1.i = c
  | 0, _, _, hfuel => absurd hfuel (Nat.not_lt_zero _)
  | fuel + 1, s, hle, hfuel => by
      simp only [runLoop]
      by_cases heq : s.i = c
      · have hg : loopGuard cfg s = false := by
          simp [loopGuard, hc, countAllows, heq]
        rw [if_neg (by simp [hg])]
        exact ⟨rfl, heq⟩
      · have hlt : s.i < c := by omega
        have hg : loopGuard cfg s = true := by
          simp [loopGuard, hc, countAllows, hlt, hsig s.i]
        rw [if_pos hg]
        obtain ⟨_, hi⟩ := iterStep_counters cfg s
        simp only [hok s.i]
        by_cases hcr : countReached cfg.count (iterStep cfg s).2.i
        · rw [if_pos hcr]
          refine ⟨rfl, ?_⟩
          show (iterStep cfg s).2.i = c
          simp only [countReached, hc, hi, decide_eq_true_eq] at hcr
          omega
        · rw [if_neg hcr]
          have hival : (iterStep cfg s).2.i = s.i + 1 := hi
          have hle2 : (iterStep cfg s).2.i ≤ c := by
            simp only [countReached, hc, hival, decide_eq_true_eq] at hcr
            omega
          have ih := runLoop_complete cfg c hc hok hsig fuel (iterStep cfg s).2 hle2
            (by rw [hival]; omega)
          exact ih

/-- If the first failing body is at index `kf`, every earlier body succeeds
and no signal arrives, the loop leaves with the exception pending after
exactly `kf` further successful emissions. -/
theorem runLoop_first_exn (cfg : RunCfg) (kf : Nat)
    (hb : cfg.body kf = .exn) (hpre : ∀ j, j < kf → cfg.body j = .ok)
    (hsig : ∀ j, j ≤ kf → cfg.sigGuard j = false)
    (hcnt : countAllows cfg.count kf = true) :
    ∀ (fuel : Nat) (s : LoopState), s.i ≤ kf → kf - s.i < fuel →
    (runLoop cfg fuel s).2.2 = .exnRaised
      ∧ (runLoop cfg fuel s).2.1.events_generated = s.events_generated + (kf - s.i)
  | 0, _, _, hfuel => absurd hfuel (Nat.not_lt_zero _)
  | fuel + 1, s, hle, hfuel => by
      simp only [runLoop]
      have hallow : countAllows cfg.count s.i = true := by
        rcases hco : cfg.count with _ | c
        · rfl
        · rw [hco] at hcnt
          simp only [countAllows, decide_eq_true_eq] at *
          omega
      have hg : loopGuard cfg s = true := by
        simp [loopGuard, hallow, hsig s.i hle]
      rw [if_pos hg]
      by_cases heq : s.i = kf
      · rw [heq]
        simp only [hb]
        simp [heq]
      · have hlt : s.i < kf := by omega
        simp only [hpre s.i hlt]
        obtain ⟨hev, hi⟩ := iterStep_counters cfg s
        have hcr : countReached cfg.count (iterStep cfg s).2.i = false := by
          rcases hco : cfg.count with _ | c
          · rfl
          · rw [hco] at hcnt
            simp only [countAllows, decide_eq_true_eq] at hcnt
            simp only [countReached, hi, decide_eq_false_iff_not]
            omega
        rw [if_neg (by simp [hcr])]
        have ih := runLoop_first_exn cfg kf hb hpre hsig hcnt fuel (iterStep cfg s).2
          (by rw [hi]; omega) (by rw [hi]; omega)
        refine ⟨ih.1, ?_⟩
        rw [ih.2, hev]
        omega

/-! ### Shared helper lemmas for the claims -/

/-- The call is still running exactly when the loop ran out of fuel. -/
theorem gen_running_iff (cfg : RunCfg) (fuel : Nat) :
    (generate_events_at_rate cfg fuel).2.2 = .running
      ↔ (runLoop cfg fuel (initState cfg)).2.2 = .fuelOut := by
  simp only [generate_events_at_rate]
  rcases hex : (runLoop cfg fuel (initState cfg)).2.2 with _ | _ | _ | _ <;> simp [hex]

/-- On any run whose loop finished (did not run out of fuel),
`generate_events_at_rate`'s trace holds exactly one close and one summary,
and `main`'s trace exactly two closes and one summary. -/
theorem close_summary_counts (cfg : RunCfg) (fuel : Nat)
    (h : (runLoop cfg fuel (initState cfg)).2.2 ≠ .fuelOut) :
    countCloses (generate_events_at_rate cfg fuel).1 = 1
      ∧ countSummaries (generate_events_at_rate cfg fuel).1 = 1
      ∧ countCloses (mainRun cfg fuel).1 = 2
      ∧ countSummaries (mainRun cfg fuel).1 = 1 := by
  obtain ⟨hc0, hs0, _⟩ := runLoop_no_close cfg fuel (initState cfg)
  rcases hex : (runLoop cfg fuel (initState cfg)).2.2 with _ | _ | _ | _
  · simp only [mainRun, generate_events_at_rate, hex]
    refine ⟨?_, ?_, ?_, ?_⟩ <;>
      simp only [countCloses_append, countSummaries_append, hc0, hs0] <;> rfl
  · simp only [mainRun, generate_events_at_rate, hex]
    refine ⟨?_, ?_, ?_, ?_⟩ <;>
      simp only [countCloses_append, countSummaries_append, hc0, hs0] <;> rfl
  · simp only [mainRun, generate_events_at_rate, hex]
    refine ⟨?_, ?_, ?_, ?_⟩ <;>
      simp only [countCloses_append, countSummaries_append, hc0, hs0] <;> rfl
  · exact absurd hex h

/-- The final value of `events_generated` is monotone in the number of
inspected iterations: observed later in the run, it is never smaller. -/
theorem runLoop_fuel_mono (cfg : RunCfg) : ∀ (f1 f2 : Nat) (s : LoopState), f1 ≤ f2 →
    (runLoop cfg f1 s).2.1.events_generated ≤ (runLoop cfg f2 s).2.1.events_generated
  | 0, f2, s, _ => by
      have h := (runLoop_counter_law cfg f2 s).1
      simp only [runLoop]
      omega
  | _ + 1, 0, _, hle => absurd hle (by omega)
  | f1 + 1, f2 + 1, s, hle => by
      simp only [runLoop]
      by_cases hg : loopGuard cfg s
      · rw [if_pos hg, if_pos hg]
        rcases hb : cfg.body s.i with _ | _ | _ <;> simp only [hb]
        · by_cases hcr : countReached cfg.count (iterStep cfg s).2.i
          · rw [if_pos hcr, if_pos hcr]
          · rw [if_neg hcr, if_neg hcr]
            exact runLoop_fuel_mono cfg f1 f2 (iterStep cfg s).2 (by omega)
        · exact le_refl _
        · exact le_refl _
      · rw [if_neg hg, if_neg hg]

/-- Folding the file sink's `output` over a record list appends one
serialized line per record to the write buffer and touches neither the disk
content nor the closed flag. -/
theorem fileRun_file (rs : List Json) : ∀ (p : FileOutputPlugin),
    (rs.foldl FileOutputPlugin.output p).file.buffer
        = p.file.buffer ++ (rs.map (fun r => dumps r ++ ['\n'])).flatten
      ∧ (rs.foldl FileOutputPlugin.output p).file.disk = p.file.disk
      ∧ (rs.foldl FileOutputPlugin.output p).file.closed = p.file.closed := by
  induction rs with
  | nil => intro p; simp
  | cons r rs ih =>
      intro p
      obtain ⟨h1, h2, h3⟩ := ih (p.output r)
      have e1 : (p.output r).file.buffer = p.file.buffer ++ (dumps r ++ ['\n']) := rfl
      have e2 : (p.output r).file.disk = p.file.disk := rfl
      have e3 : (p.output r).file.closed = p.file.closed := rfl
      refine ⟨?_, ?_, ?_⟩
      · rw [List.foldl_cons, h1, e1]
        simp [List.map_cons, List.flatten_cons, List.append_assoc]
      · rw [List.foldl_cons, h2, e2]
      · rw [List.foldl_cons, h3, e3]

/-- Closing an already-closed CPython file handle changes nothing. -/
theorem fileHandle_close_close (h : FileHandle) : h.close.close = h.close := by
  by_cases hc : h.closed <;> simp [FileHandle.close, hc]

/-! ### Concrete run configurations used by the witnesses and
counterexamples -/

/-- A plain bounded run at 2 records per second toward a file sink. -/
def cfgA : RunCfg :=
  { rate := 2, count := some 3, stats_interval := 5, startTime := 0, activityStart := 0,
    now := fun _ => 0, body := fun _ => .ok, sigGuard := fun _ => false,
    sigSleep := fun _ => false, outputType := "FileOutputPlugin" }

/-- A bounded run of two records, every body succeeding. -/
def cfgB : RunCfg :=
  { rate := 1, count := some 2, stats_interval := 5, startTime := 0, activityStart := 0,
    now := fun _ => 0, body := fun _ => .ok, sigGuard := fun _ => false,
    sigSleep := fun _ => false, outputType := "FileOutputPlugin" }

/-- A bounded run of two records for exercising the counter invariants. -/
def cfgD : RunCfg :=
  { rate := 1, count := some 2, stats_interval := 5, startTime := 0, activityStart := 0,
    now := fun _ => 0, body := fun _ => .ok, sigGuard := fun _ => false,
    sigSleep := fun _ => false, outputType := "FileOutputPlugin" }

/-- A run whose count is zero: the loop exits at once and only the shutdown
path runs. -/
def cfgE : RunCfg :=
  { rate := 1, count := some 0, stats_interval := 5, startTime := 0, activityStart := 0,
    now := fun _ => 0, body := fun _ => .ok, sigGuard := fun _ => false,
    sigSleep := fun _ => false, outputType := "FileOutputPlugin" }

/-- A second count-zero run, for the close-count theorem's witness. -/
def cfgF : RunCfg :=
  { rate := 1, count := some 0, stats_interval := 5, startTime := 0, activityStart := 0,
    now := fun _ => 0, body := fun _ => .ok, sigGuard := fun _ => false,
    sigSleep := fun _ => false, outputType := "FileOutputPlugin" }

/-- A run whose very first body raises an ordinary exception. -/
def cfgG : RunCfg :=
  { rate := 1, count := none, stats_interval := 5, startTime := 0, activityStart := 0,
    now := fun _ => 0, body := fun _ => .exn, sigGuard := fun _ => false,
    sigSleep := fun _ => false, outputType := "FileOutputPlugin" }

/-- A run whose second body raises an ordinary exception. -/
def cfgH : RunCfg :=
  { rate := 1, count := none, stats_interval := 5, startTime := 0, activityStart := 0,
    now := fun _ => 0, body := fun k => if k = 1 then .exn else .ok,
    sigGuard := fun _ => false, sigSleep := fun _ => false,
    outputType := "FileOutputPlugin" }

/-- A run used alongside the degraded Kafka sink. -/
def cfgK : RunCfg :=
  { rate := 1, count := some 2, stats_interval := 5, startTime := 0, activityStart := 0,
    now := fun _ => 0, body := fun _ => .ok, sigGuard := fun _ => false,
    sigSleep := fun _ => false, outputType := "KafkaOutputPlugin" }

/-- A bounded run toward the terminal sink. -/
def cfgT : RunCfg :=
  { rate := 1, count := some 2, stats_interval := 0, startTime := 0, activityStart := 0,
    now := fun k => k, body := fun _ => .ok, sigGuard := fun _ => false,
    sigSleep := fun _ => false, outputType := "TerminalOutputPlugin" }

/-! ### The claims -/

/-- Claim C1: after the n-th successful emission (n = absolute records so
far), the controller sleeps for `max 0 (start_time + n / rate - now)` — and
only then: the sleep happens exactly when that quantity is positive, the next
record is still wanted and no stop signal arrived; in particular no sleep
follows the final record of a bounded run. -/
theorem C1_rate_control_sleep (cfg : RunCfg) (s : LoopState) ( hr : 0 < cfg.rate)
    (hinv : s.events_generated = s.i) :
    ((iterStep cfg s).1.filter isSleepAct
        = if 0 < max 0 (cfg.startTime + ((s.i + 1 : Nat) : ℚ) / cfg.rate - cfg.now s.i)
              ∧ countAllows cfg.count (s.i + 1) = true ∧ cfg.sigSleep s.i = false then
            [Action.sleep (max 0 (cfg.startTime + ((s.i + 1 : Nat) : ℚ) / cfg.rate - cfg.now s.i))]
          else [])
      ∧ (cfg.count = some (s.i + 1) → (iterStep cfg s).1.filter isSleepAct = []) := by
  have main : (iterStep cfg s).1.filter isSleepAct
      = if 0 < max 0 (cfg.startTime + ((s.i + 1 : Nat) : ℚ) / cfg.rate - cfg.now s.i)
            ∧ countAllows cfg.count (s.i + 1) = true ∧ cfg.sigSleep s.i = false then
          [Action.sleep (max 0 (cfg.startTime + ((s.i + 1 : Nat) : ℚ) / cfg.rate - cfg.now s.i))]
        else [] := by
    simp only [iterStep, hinv]
    by_cases h1 : 0 < max 0 (cfg.startTime + ((s.i + 1 : Nat) : ℚ) / cfg.rate - cfg.now s.i)
    <;> rcases hca : countAllows cfg.count (s.i + 1) with _ | _
    <;> rcases hsg : cfg.sigSleep s.i with _ | _
    <;> simp [h1, hca, hsg, isSleepAct, List.filter_append, List.filter_cons]
    <;> split_ifs
    <;> simp [isSleepAct]
    <;> first
      | rfl
      | (intros; subst_vars; rfl)
      | (constructor <;> (intros; subst_vars; rfl))
  refine ⟨main, fun hcount => ?_⟩
  have hnot : ¬(0 < max 0 (cfg.startTime + ((s.i + 1 : Nat) : ℚ) / cfg.rate - cfg.now s.i)
      ∧ countAllows cfg.count (s.i + 1) = true ∧ cfg.sigSleep s.i = false) := by
    rintro ⟨-, h2, -⟩
    rw [hcount] at h2
    simp [countAllows] at h2
  rw [main, if_neg hnot]

/-- Witness for C1 at a concrete input: the first record of a 2-per-second
run is followed by a half-second sleep. -/
theorem C1_rate_control_sleep_witness :
    (iterStep cfgA (initState cfgA)).1.filter isSleepAct = [Action.sleep ((1 : ℚ) / 2)] := by
  have h := C1_rate_control_sleep cfgA (initState cfgA) (by norm_num [cfgA]) rfl
  have hcond : 0 < max 0 (cfgA.startTime
        + (((initState cfgA).i + 1 : Nat) : ℚ) / cfgA.rate - cfgA.now (initState cfgA).i)
      ∧ countAllows cfgA.count ((initState cfgA).i + 1) = true
      ∧ cfgA.sigSleep (initState cfgA).i = false := by
    refine ⟨?_, rfl, rfl⟩
    simp only [cfgA, initState]
    rw [lt_max_iff]
    right
    norm_num
  rw [h.1, if_pos hcond]
  simp only [cfgA, initState]
  rw [max_eq_right (by norm_num)]
  norm_num

/-- Claim C2: a bounded run with a positive rate, no sink failures and no
stop signal returns normally, emits exactly `count` records, and finishes
with `events_generated = count`. -/
theorem C2_bounded_run_emits_count (cfg : RunCfg) (c fuel : Nat) ( hr : 0 < cfg.rate)
    (hc : cfg.count = some c) (hok : ∀ k, cfg.body k = .ok)
    (hsig : ∀ k, cfg.sigGuard k = false) (hfuel : c < fuel) :
    (generate_events_at_rate cfg fuel).2.2 = .returned
      ∧ countEmits (generate_events_at_rate cfg fuel).1 = c
      ∧ (generate_events_at_rate cfg fuel).2.1.events_generated = c := by
  obtain ⟨hex, hi⟩ := runLoop_complete cfg c hc hok hsig fuel (initState cfg)
    (by simp [initState]) (by simp [initState]; omega)
  obtain ⟨hev, hic⟩ := runLoop_counter_law cfg fuel (initState cfg)
  have hz1 : (initState cfg).events_generated = 0 := rfl
  have hz2 : (initState cfg).i = 0 := rfl
  rw [hz1] at hev
  rw [hz2] at hic
  simp only [generate_events_at_rate, hex]
  refine ⟨trivial, ?_, ?_⟩
  · rw [countEmits_append]
    have h0 : countEmits [Action.summaryLine
        (runLoop cfg fuel (initState cfg)).2.1.events_generated, Action.closeSink] = 0 := rfl
    omega
  · show (runLoop cfg fuel (initState cfg)).2.1.events_generated = c
    omega

/-- Witness for C2: the concrete two-record run returns with exactly two
emissions. -/
theorem C2_bounded_run_emits_count_witness :
    countEmits (generate_events_at_rate cfgB 3).1 = 2
      ∧ (generate_events_at_rate cfgB 3).2.1.events_generated = 2 := by
  have h := C2_bounded_run_emits_count cfgB 2 3 (by norm_num [cfgB]) rfl
    (fun _ => rfl) (fun _ => rfl) (by omega)
  exact ⟨h.2.1, h.2.2⟩

/-- Claim C3: `events_generated` rises by exactly one per successful emit,
equals its initial value plus the number of emissions (hence never
decreases), is monotone in how far the run has progressed, and never exceeds
the configured count. -/
theorem C3_counter_invariants (cfg : RunCfg) (c : Nat) (hc : cfg.count = some c)
    (s : LoopState) (hinv : s.events_generated = s.i) (hle : s.i ≤ c) :
    (iterStep cfg s).2.events_generated = s.events_generated + 1
      ∧ (∀ fuel, (runLoop cfg fuel s).2.1.events_generated
            = s.events_generated + countEmits (runLoop cfg fuel s).1)
      ∧ (∀ f1 f2, f1 ≤ f2 → (runLoop cfg f1 s).2.1.events_generated
            ≤ (runLoop cfg f2 s).2.1.events_generated)
      ∧ (∀ fuel, (runLoop cfg fuel s).2.1.events_generated ≤ c) := by
  refine ⟨(iterStep_counters cfg s).1, fun fuel => (runLoop_counter_law cfg fuel s).1,
    fun f1 f2 h12 => runLoop_fuel_mono cfg f1 f2 s h12, fun fuel => ?_⟩
  have h1 := (runLoop_counter_law cfg fuel s).1
  have h2 := runLoop_emit_bound cfg c hc fuel s
  omega

/-- Witness for C3 on the concrete two-record run: the counter never exceeds
the configured count of 2. -/
theorem C3_counter_invariants_witness :
    (runLoop cfgD 3 (initState cfgD)).2.1.events_generated ≤ 2
      ∧ (iterStep cfgD (initState cfgD)).2.events_generated = 1 := by
  have h := C3_counter_invariants cfgD 2 rfl (initState cfgD) rfl (by decide)
  exact ⟨h.2.2.2 3, h.1⟩

/-- Claim C4 fails as stated: on the concrete count-zero run the program
closes the sink twice — once in the engine's `finally` and once more in
`main`'s `finally` — not exactly once. -/
theorem C4_close_counterexample :
    (mainRun cfgE 1).2.2 = RunOutcome.returned
      ∧ countCloses (mainRun cfgE 1).1 = 2
      ∧ ¬ countCloses (mainRun cfgE 1).1 = 1 := by
  decide

/-- Claim C4 as amended: on every finished run `generate_events_at_rate`
itself closes the sink exactly once and prints the summary exactly once,
while the whole program (through `main`'s own `finally`) closes the sink
exactly twice and prints the summary exactly once. -/
theorem C4_close_and_summary_counts (cfg : RunCfg) (fuel : Nat)
    (h : ¬ (generate_events_at_rate cfg fuel).2.2 = .running) :
    countCloses (generate_events_at_rate cfg fuel).1 = 1
      ∧ countSummaries (generate_events_at_rate cfg fuel).1 = 1
      ∧ countCloses (mainRun cfg fuel).1 = 2
      ∧ countSummaries (mainRun cfg fuel).1 = 1 := by
  refine close_summary_counts cfg fuel (fun hfo => ?_)
  exact h ((gen_running_iff cfg fuel).mpr hfo)

/-- Witness for the amended C4 on the concrete count-zero run. -/
theorem C4_close_and_summary_counts_witness :
    countCloses (generate_events_at_rate cfgF 1).1 = 1
      ∧ countCloses (mainRun cfgF 1).1 = 2 := by
  have h := C4_close_and_summary_counts cfgF 1 (by decide)
  exact ⟨h.1, h.2.2.1⟩

/-- Claim C5 fails as stated: an ordinary exception in the loop body is not
caught at the loop boundary — the concrete run whose first body raises
leaves `generate_events_at_rate` with the exception escaping. -/
theorem C5_uncaught_error_counterexample :
    (generate_events_at_rate cfgG 1).2.2 = RunOutcome.raised
      ∧ ¬ (generate_events_at_rate cfgG 1).2.2 = RunOutcome.returned := by
  decide

/-- Claim C5 as amended: when the first failing body is iteration `kf`, the
failed record is not counted — `events_generated` stays at `kf`, the number
of previously accepted records — and the `finally` block still prints the
final summary once and closes the sink once; but the exception itself
propagates out of `generate_events_at_rate` uncaught. -/
theorem C5_emit_error_shutdown (cfg : RunCfg) (kf fuel : Nat)
    (hb : cfg.body kf = .exn) (hpre : ∀ j, j < kf → cfg.body j = .ok)
    (hsig : ∀ j, j ≤ kf → cfg.sigGuard j = false)
    (hcnt : countAllows cfg.count kf = true) (hfuel : kf < fuel) :
    (generate_events_at_rate cfg fuel).2.2 = .raised
      ∧ (generate_events_at_rate cfg fuel).2.1.events_generated = kf
      ∧ countEmits (generate_events_at_rate cfg fuel).1 = kf
      ∧ countCloses (generate_events_at_rate cfg fuel).1 = 1
      ∧ countSummaries (generate_events_at_rate cfg fuel).1 = 1 := by
  obtain ⟨hex, hev⟩ := runLoop_first_exn cfg kf hb hpre hsig hcnt fuel (initState cfg)
    (by simp [initState]) (by simp [initState]; omega)
  obtain ⟨hev2, _⟩ := runLoop_counter_law cfg fuel (initState cfg)
  have hcs := close_summary_counts cfg fuel (by rw [hex]; intro hcon; cases hcon)
  refine ⟨?_, ?_, ?_, hcs.1, hcs.2.1⟩
  · simp only [generate_events_at_rate, hex]
  · simp only [generate_events_at_rate, hex]
    show (runLoop cfg fuel (initState cfg)).2.1.events_generated = kf
    have hz1 : (initState cfg).events_generated = 0 := rfl
    have hz2 : (initState cfg).i = 0 := rfl
    rw [hz1, hz2] at hev
    omega
  · simp only [generate_events_at_rate, hex, countEmits_append]
    have h0 : countEmits [Action.summaryLine
        (runLoop cfg fuel (initState cfg)).2.1.events_generated, Action.closeSink] = 0 := rfl
    have hz1 : (initState cfg).events_generated = 0 := rfl
    have hz2 : (initState cfg).i = 0 := rfl
    rw [hz1, hz2] at hev
    rw [hz1] at hev2
    omega

/-- Witness for the amended C5: with the second body failing, one record is
counted, the summary and the close still happen, and the exception escapes. -/
theorem C5_emit_error_shutdown_witness :
    (generate_events_at_rate cfgH 3).2.2 = RunOutcome.raised
      ∧ (generate_events_at_rate cfgH 3).2.1.events_generated = 1
      ∧ countCloses (generate_events_at_rate cfgH 3).1 = 1 := by
  have h := C5_emit_error_shutdown cfgH 1 3 rfl
    (fun j hj => by
      have hj0 : j = 0 := by omega
      rw [hj0]
      rfl)
    (fun j _ => rfl) rfl (by omega)
  exact ⟨h.1, h.2.1, h.2.2.2.1⟩

/-- Claim C6: a run of the file sink yields a file of one serialized record
per line, each line terminated by a newline with nothing after the final one
(`splitNL` recovers exactly the serialized records with empty residue), and
deserializing each line reproduces the emitted record. -/
theorem C6_file_sink_round_trip (path : String) (prior : Option (List Char)) (rs : List Json) :
    splitNL ((rs.foldl FileOutputPlugin.output
          (FileOutputPlugin.init path prior)).close.file.disk)
        = (rs.map dumps, [])
      ∧ (rs.map dumps).map loads = rs.map some := by
  obtain ⟨h1, h2, h3⟩ := fileRun_file rs (FileOutputPlugin.init path prior)
  constructor
  · have hcl : (rs.foldl FileOutputPlugin.output
        (FileOutputPlugin.init path prior)).file.closed = false := by
      rw [h3]
      rfl
    have hdsk : (rs.foldl FileOutputPlugin.output
        (FileOutputPlugin.init path prior)).file.disk = [] := by
      rw [h2]
      rfl
    have hbuf : (rs.foldl FileOutputPlugin.output
        (FileOutputPlugin.init path prior)).file.buffer
        = (rs.map (fun r => dumps r ++ ['\n'])).flatten := by
      rw [h1]
      simp [FileOutputPlugin.init]
    have hdisk : (rs.foldl FileOutputPlugin.output
        (FileOutputPlugin.init path prior)).close.file.disk
        = (rs.map (fun r => dumps r ++ ['\n'])).flatten := by
      simp [FileOutputPlugin.close, FileHandle.close, hcl, hdsk, hbuf]
    rw [hdisk]
    exact splitNL_dumps_lines rs
  · simp [List.map_map, Function.comp, loads_dumps]

/-- Claim C7: whenever the Kafka client library is missing or the connection
attempt failed, the constructed sink has no producer; its `output` then
leaves the sink unchanged and merely logs the topic and the serialized
record it would have sent (it cannot raise, being a total function), and the
engine's per-iteration counter still increments by one. -/
theorem C7_kafka_degraded_logging (ka : Bool) (configDoc : Option KafkaConfigDoc)
    (topic : String) (kfield : Option String) (connectResult : Option KafkaProducerModel)
    (event : Json) (cfg : RunCfg) (s : LoopState)
    (h : ka = false ∨ connectResult = none) :
    (KafkaOutputPlugin.init ka configDoc topic kfield connectResult).producer = none
      ∧ (KafkaOutputPlugin.output
            (KafkaOutputPlugin.init ka configDoc topic kfield connectResult) ka event).1
          = KafkaOutputPlugin.init ka configDoc topic kfield connectResult
      ∧ (KafkaOutputPlugin.output
            (KafkaOutputPlugin.init ka configDoc topic kfield connectResult) ka event).2
          = [SinkEvent.wouldSendLog
              (KafkaOutputPlugin.init ka configDoc topic kfield connectResult).topic
              (dumps event)]
      ∧ (iterStep cfg s).2.events_generated = s.events_generated + 1 := by
  have hp : (KafkaOutputPlugin.init ka configDoc topic kfield connectResult).producer
      = none := by
    rcases h with h | h
    · rw [h]
      rfl
    · rw [h]
      cases ka
      · rfl
      · rcases configDoc with _ | doc <;> rfl
  refine ⟨hp, ?_, ?_, (iterStep_counters cfg s).1⟩
  · cases ka
    · rfl
    · simp [KafkaOutputPlugin.output, hp]
  · cases ka
    · rfl
    · simp [KafkaOutputPlugin.output, hp]

/-- Witness for C7: the library-missing sink logs the would-send line for a
concrete record. -/
theorem C7_kafka_degraded_logging_witness :
    (KafkaOutputPlugin.output (KafkaOutputPlugin.init false none "events" none none)
        false (Json.num 5)).2
      = [SinkEvent.wouldSendLog "events" (dumps (Json.num 5))] := by
  have h := C7_kafka_degraded_logging false none "events" none none (Json.num 5)
    cfgK (initState cfgK) (Or.inl rfl)
  exact h.2.2.1

/-- Claim C8: with the terminal sink active, no periodic statistics block
(and no activity tick) is ever rendered, whatever the interval and however
long the run goes. -/
theorem C8_terminal_suppresses_stats (cfg : RunCfg) (fuel : Nat)
    (h : cfg.outputType = "TerminalOutputPlugin") :
    countStatsBlocks (mainRun cfg fuel).1 = 0
      ∧ countActivityTicks (mainRun cfg fuel).1 = 0 := by
  have hs : shouldDisplayStats cfg = false := by
    simp [shouldDisplayStats, h]
  obtain ⟨h1, h2⟩ := runLoop_no_stats cfg hs fuel (initState cfg)
  rcases hex : (runLoop cfg fuel (initState cfg)).2.2 with _ | _ | _ | _ <;>
  · simp only [mainRun, generate_events_at_rate, hex]
    refine ⟨?_, ?_⟩ <;>
      simp only [countStatsBlocks_append, countActivityTicks_append, h1, h2] <;> rfl

/-- Witness for C8 on a concrete terminal-sink run whose interval is zero
and whose clock advances every iteration. -/
theorem C8_terminal_suppresses_stats_witness :
    countStatsBlocks (mainRun cfgT 3).1 = 0 := by
  have h := C8_terminal_suppresses_stats cfgT 3 rfl
  exact h.1

/-- Claim C9: for each sink, a second `close()` after a first is a no-op: it
cannot fail (all three `close` models are total functions) and repeats no
flush — the file sink's state is unchanged and the Kafka sink's second close
delivers no further pending sends. -/
theorem C9_close_idempotent :
    (∀ p : FileOutputPlugin, p.close.close = p.close)
      ∧ (∀ p : TerminalOutputPlugin, p.close.close = p.close)
      ∧ (∀ (p : KafkaOutputPlugin) (ka : Bool),
          KafkaOutputPlugin.close (KafkaOutputPlugin.close p ka).1 ka
            = ((KafkaOutputPlugin.close p ka).1, ([] : List SinkEvent))) := by
  refine ⟨?_, ?_, ?_⟩
  · intro p
    simp [FileOutputPlugin.close, fileHandle_close_close]
  · intro p
    rfl
  · intro p ka
    cases ka
    · rfl
    · rcases p with ⟨pro, topic, kfield⟩
      rcases pro with _ | pr
      · rfl
      · rcases pr with ⟨pend, cl⟩
        cases cl <;> rfl

/-- Claim C10: constructing the file sink truncates the target: immediately
after construction the handle is over an empty file whatever the path held
before, the whole run is independent of that prior content, and the final
disk content is exactly the serialized records of this run. -/
theorem C10_truncating_open (path : String) (prior : Option (List Char)) (rs : List Json) :
    (FileOutputPlugin.init path prior).file
        = { disk := [], buffer := [], closed := false }
      ∧ FileOutputPlugin.init path prior = FileOutputPlugin.init path none
      ∧ (rs.foldl FileOutputPlugin.output
            (FileOutputPlugin.init path prior)).close.file.disk
          = (rs.map (fun r => dumps r ++ ['\n'])).flatten := by
  refine ⟨rfl, rfl, ?_⟩
  obtain ⟨h1, h2, h3⟩ := fileRun_file rs (FileOutputPlugin.init path prior)
  have hcl : (rs.foldl FileOutputPlugin.output
      (FileOutputPlugin.init path prior)).file.closed = false := by
    rw [h3]
    rfl
  have hdsk : (rs.foldl FileOutputPlugin.output
      (FileOutputPlugin.init path prior)).file.disk = [] := by
    rw [h2]
    rfl
  have hbuf : (rs.foldl FileOutputPlugin.output
      (FileOutputPlugin.init path prior)).file.buffer
      = (rs.map (fun r => dumps r ++ ['\n'])).flatten := by
    rw [h1]
    simp [FileOutputPlugin.init]
  simp [FileOutputPlugin.close, FileHandle.close, hcl, hdsk, hbuf]


end EventForge
